import Mathlib

set_option autoImplicit false

/-!
Shallow embedding of the yam-toolkit sources (src/yamshuf.c, src/yamscan.c)
and verification of the frozen claims about them.

Conventions used throughout:
* C arrays are modelled as total functions from `ℕ`; an in-place write
  `a[i] = v` becomes the functional update `fun x => if x = i then v else a x`.
* The flat PWM layout `pwm[letter + pos * 5]` is modelled as a curried
  function `pwm : ℕ → ℕ → ℤ` applied as `pwm pos letter`.
* `double` arithmetic is modelled exactly over `ℚ`; the C `log2` over
  `double` is modelled by its exact real semantics, realised computably
  with `Int.log` (see `log2_fixed`).
* The pseudo random generator `kr_rand_r` is modelled as an arbitrary
  stream `draws : ℕ → ℕ` of draws together with a cursor into the stream,
  so every theorem quantifies over all possible generator outputs.
* `while` loops whose termination depends on the data are given explicit
  fuel and return `Option`; `none` means the loop did not finish.
-/

namespace Yam

/-- Alphabet codec shared by both tools (`char2index` tables in
yamshuf.c and yamscan.c): A/a ↦ 0, C/c ↦ 1, G/g ↦ 2, T/t/U/u ↦ 3,
every other byte ↦ 4. -/
def char2index (c : Char) : ℕ :=
  match c with
  | 'A' | 'a' => 0
  | 'C' | 'c' => 1
  | 'G' | 'g' => 2
  | 'T' | 't' | 'U' | 'u' => 3
  | _ => 4

/-- `index2dna` table ("ACGTN"). -/
def index2dna (i : ℕ) : Char :=
  match i with
  | 0 => 'A' | 1 => 'C' | 2 => 'G' | 3 => 'T' | _ => 'N'

/-- `index2rna` table ("ACGUN"). -/
def index2rna (i : ℕ) : Char :=
  match i with
  | 0 => 'A' | 1 => 'C' | 2 => 'G' | 3 => 'U' | _ => 'N'

/-- `is_dna ? index2dna : index2rna` selection used by the shufflers. -/
def index2xna (is_dna : Bool) (i : ℕ) : Char :=
  if is_dna then index2dna i else index2rna i

/-- The `pow5` table of yamshuf.c restricted to the exact powers
(entries up to `5^13` are exact in the C table; only `k ≤ 9` is ever
used by the program). -/
def pow5 (i : ℕ) : ℕ := 5 ^ i

end Yam

namespace Yamshuf

open Yam

/-- `swap` from yamshuf.c: exchange `seq[i]` and `seq[j]`. -/
def swap (seq : List Char) (i j : ℕ) : List Char :=
  (seq.set i (seq.getD j 'A')).set j (seq.getD i 'A')

/-- `shuffle_fisher_yates` from yamshuf.c:
`for (i = 0, l = len - 1; i < l; i++) swap(seq, i, i + rand % (l - i));`.
One generator draw is consumed per iteration; `pos` is the cursor into
the draw stream and the updated cursor is returned. -/
def shuffle_fisher_yates (seq : List Char) (draws : ℕ → ℕ) (pos : ℕ) :
    List Char × ℕ :=
  let l := seq.length - 1
  ((List.range l).foldl (fun s i => swap s i (i + draws (pos + i) % (l - i))) seq,
    pos + l)

/-- `swap_k` from yamshuf.c: swap the `k`-blocks at `i` and `j`. -/
def swap_k (seq : List Char) (i j k : ℕ) : List Char :=
  (List.range k).foldl (fun s a => swap s (i + a) (j + a)) seq

/-- `shuffle_linear` from yamshuf.c:
`for (i = 0; i < size - 2k + 1; i += k) { r = rand % (size - 2k + 1 - i);
swap_k(seq, i, i + k + r - r % k, k); }` (call sites guarantee
`size ≥ 2k`). -/
def shuffle_linear (seq : List Char) (size k : ℕ) (draws : ℕ → ℕ) (pos : ℕ) :
    List Char × ℕ :=
  let n := (size - 2 * k) / k + 1
  ((List.range n).foldl
      (fun s t =>
        let i := t * k
        let r := draws (pos + t) % (size - 2 * k + 1 - i)
        swap_k s i (i + k + r - r % k) k) seq,
    pos + n)

/-- `chars2kmer` from yamshuf.c: the base-5 encoding
`Σ_j 5^(k-1-j) · char2index(seq[offset+j])` of the `k`-mer at `offset`. -/
def chars2kmer (seq : List Char) (k offset : ℕ) : ℕ :=
  ∑ j ∈ Finset.range k, pow5 (k - 1 - j) * char2index (seq.getD (offset + j) 'N')

/-- `count_kmers` from yamshuf.c: increment `kmer_tab[chars2kmer(i)]` for
every `i < size - k + 1`, starting from the all-zero table. -/
def count_kmers (seq : List Char) (size k : ℕ) : ℕ → ℕ :=
  (List.range (size - k + 1)).foldl
    (fun tab i => fun e => if e = chars2kmer seq k i then tab e + 1 else tab e)
    (fun _ => 0)

/-- `cumsum_and_pick_next_letter` from yamshuf.c: cumulative sums of the
five counts of a row, then a categorical draw `r = rand % k4`. -/
def cumsum_and_pick_next_letter (kmers : ℕ → ℕ) (rand : ℕ) : ℕ :=
  let k0 := kmers 0
  let k1 := k0 + kmers 1
  let k2 := k1 + kmers 2
  let k3 := k2 + kmers 3
  let k4 := k3 + kmers 4
  let r := rand % k4
  if r < k0 then 0
  else if r < k1 then 1
  else if r < k2 then 2
  else if r < k3 then 3
  else 4

/-- `pick_next_letter` from yamshuf.c (used by the Markov shuffle): the
row is already cumulative; an empty row falls back to `rand % 4`. -/
def pick_next_letter (kmers : ℕ → ℕ) (rand : ℕ) : ℕ :=
  if kmers 4 = 0 then rand % 4
  else
    let r := rand % kmers 4
    if r < kmers 0 then 0
    else if r < kmers 1 then 1
    else if r < kmers 2 then 2
    else if r < kmers 3 then 3
    else 4

/-- `COUNT_EDGES(OFFSET, TABLE)` from yamshuf.c: sum of the five counts
starting at `OFFSET`. -/
def count_edges (tab : ℕ → ℕ) (offset : ℕ) : ℕ :=
  tab offset + tab (offset + 1) + tab (offset + 2) + tab (offset + 3) +
    tab (offset + 4)

end Yamshuf

namespace Yamshuf

open Yam

/-- The `next_index` table of `shuffle_euler`: for `k > 2` the loop
`for (i = 0, j = 0; i < 5^(k-1); i++, j++) { if (j == 5^(k-2)) j = 0;
next_index[i] = j * 5; }` stores `(i mod 5^(k-2)) * 5`; for `k = 2` the
table stays zero-initialised. -/
def next_index (k i : ℕ) : ℕ :=
  if 2 < k then (i % pow5 (k - 2)) * 5 else 0

/-- State of the Eulerian-path construction of `shuffle_euler`:
the mutable `euler_path` array, the `invalid_vertex` flags and the
cursor into the draw stream. -/
structure EulerSt where
  path : ℕ → ℕ
  invalid : ℕ → Bool
  pos : ℕ

/-- First inner `while` of the Eulerian-path loop of `shuffle_euler`:
`while (!invalid_vertex[u]) { euler_path[u] = cumsum_and_pick(...);
u = euler_path[u] + next_index[u]; }`, with explicit fuel (`none` when
the fuel runs out before the walk reaches an invalid vertex). -/
def euler_walk_pick (tab : ℕ → ℕ) (k : ℕ) (draws : ℕ → ℕ) (invalid : ℕ → Bool) :
    ℕ → (ℕ → ℕ) → ℕ → ℕ → Option ((ℕ → ℕ) × ℕ)
  | 0, path, pos, u => if invalid u then some (path, pos) else none
  | fuel + 1, path, pos, u =>
    if invalid u then some (path, pos)
    else
      let e := cumsum_and_pick_next_letter (fun j => tab (u * 5 + j)) (draws pos)
      let path' : ℕ → ℕ := fun x => if x = u then e else path x
      euler_walk_pick tab k draws invalid fuel path' (pos + 1) (e + next_index k u)

/-- Second inner `while` of the Eulerian-path loop of `shuffle_euler`:
`while (!invalid_vertex[u]) { invalid_vertex[u] = 1;
u = euler_path[u] + next_index[u]; }`, with explicit fuel. -/
def euler_walk_mark (k : ℕ) (path : ℕ → ℕ) :
    ℕ → (ℕ → Bool) → ℕ → Option (ℕ → Bool)
  | 0, invalid, u => if invalid u then some invalid else none
  | fuel + 1, invalid, u =>
    if invalid u then some invalid
    else
      let invalid' : ℕ → Bool := fun x => if x = u then true else invalid x
      euler_walk_mark k path fuel invalid' (path u + next_index k u)

/-- The outer `for (u, i = 0; i < 5^(k-1); i++)` loop of `shuffle_euler`
that performs, for every vertex `i`, the random walk and then the marking
walk.  Each inner `while` gets the same fuel budget. -/
def euler_find_path (tab : ℕ → ℕ) (k : ℕ) (draws : ℕ → ℕ) (fuel : ℕ) :
    List ℕ → EulerSt → Option EulerSt
  | [], st => some st
  | i :: rest, st =>
    match euler_walk_pick tab k draws st.invalid fuel st.path st.pos i with
    | none => none
    | some (path', pos') =>
      match euler_walk_mark k path' fuel st.invalid i with
      | none => none
      | some invalid' =>
        euler_find_path tab k draws fuel rest ⟨path', invalid', pos'⟩

/-- State of the final trail walk of `shuffle_euler`: the sequence being
rewritten in place, the remaining edge pool and the draw cursor. -/
structure TrailSt where
  seq : List Char
  tab : ℕ → ℕ
  pos : ℕ

/-- The final loop of `shuffle_euler`
(`for (i = k - 2; i < size - 2; i++)`): at each step either consume a
pooled edge chosen by a categorical draw, or leave through the reserved
`euler_path` exit edge, and write the chosen letter at `seq[i + 1]`. -/
def euler_trail_step (k : ℕ) (is_dna : Bool) (draws : ℕ → ℕ) (path : ℕ → ℕ)
    (st : TrailSt) (i : ℕ) : TrailSt :=
  let current_vertex := chars2kmer st.seq (k - 1) (i - k + 2)
  let kmer_index := current_vertex * 5
  if count_edges st.tab kmer_index ≠ 0 then
    let next_edge := cumsum_and_pick_next_letter (fun j => st.tab (kmer_index + j))
      (draws st.pos)
    let tab' : ℕ → ℕ := fun e =>
      if e = next_edge + kmer_index then st.tab e - 1 else st.tab e
    ⟨st.seq.set (i + 1) (index2xna is_dna next_edge), tab', st.pos + 1⟩
  else
    let next_edge := path current_vertex
    ⟨st.seq.set (i + 1) (index2xna is_dna next_edge), st.tab, st.pos⟩

/-- `shuffle_euler` from yamshuf.c, on a sequence of length `size` with a
freshly counted `kmer_tab` (as at the call site in `main`):
canonicalise the start vertex and the final base, remove the final edge,
mark zero-out-degree vertices and the final vertex invalid, run the
random Eulerian-path construction (with fuel), remove the reserved exit
edges, then walk the trail.  Returns the shuffled sequence and the new
draw cursor, or `none` when the path construction does not terminate
within the fuel. -/
def shuffle_euler (seq : List Char) (size k : ℕ) (tab : ℕ → ℕ) (is_dna : Bool)
    (draws : ℕ → ℕ) (pos fuel : ℕ) : Option (List Char × ℕ) :=
  let seq1 := seq.mapIdx (fun i c =>
    if i < k - 1 ∨ i = size - 1 then index2xna is_dna (char2index c) else c)
  let last_edge := chars2kmer seq1 k (size - k)
  let tab1 : ℕ → ℕ := fun e => if e = last_edge then tab e - 1 else tab e
  let invalid0 : ℕ → Bool := fun i =>
    if i < pow5 (k - 1) ∧ count_edges tab1 (i * 5) = 0 then true else false
  let final_vertex := chars2kmer seq1 (k - 1) (size - k + 1)
  let invalid1 : ℕ → Bool := fun i => if i = final_vertex then true else invalid0 i
  match euler_find_path tab1 k draws fuel (List.range (pow5 (k - 1)))
      ⟨fun _ => 0, invalid1, pos⟩ with
  | none => none
  | some st =>
    let tab2 : ℕ → ℕ :=
      (List.range (pow5 (k - 1))).foldl
        (fun t i =>
          let edge := i * 5 + st.path i
          if edge ≠ last_edge ∧ t edge ≠ 0 then
            fun e => if e = edge then t e - 1 else t e
          else t)
        tab1
    let final :=
      (List.range' (k - 2) (size - k)).foldl
        (euler_trail_step k is_dna draws st.path) ⟨seq1, tab2, st.pos⟩
    some (final.seq, final.pos)

/-- In-place per-row cumulative sums of the k-mer table performed at the
start of `shuffle_markov` (`for (i = 0; i < 5^k; i += 5) { tab[i+1] +=
tab[i]; ... tab[i+4] += tab[i+3]; }`): entry `e` of row `5·(e/5)` becomes
the sum of the first `e % 5 + 1` entries of its row. -/
def markov_cumsum (tab : ℕ → ℕ) : ℕ → ℕ := fun e =>
  ∑ j ∈ Finset.range (e % 5 + 1), tab (5 * (e / 5) + j)

/-- One step of the generation loop of `shuffle_markov`: compute
`previous = Σ_{j=k-1..1} char2index(seq[i-j]) · 5^j` from the current
(partially rewritten) sequence, then write the drawn letter at `seq[i]`. -/
def markov_step (k : ℕ) (is_dna : Bool) (tabc : ℕ → ℕ) (draws : ℕ → ℕ)
    (st : List Char × ℕ) (i : ℕ) : List Char × ℕ :=
  let previous := ∑ j ∈ Finset.range (k - 1),
    char2index (st.1.getD (i - (j + 1)) 'N') * pow5 (j + 1)
  (st.1.set i (index2xna is_dna (pick_next_letter (fun t => tabc (previous + t))
      (draws st.2))),
    st.2 + 1)

/-- `shuffle_markov` from yamshuf.c: cumulative-sum the table, copy the
first `k - 1` letters through the codec, then draw every following
letter from the transition row of the preceding `(k-1)`-mer. -/
def shuffle_markov (seq : List Char) (size k : ℕ) (tab : ℕ → ℕ) (is_dna : Bool)
    (draws : ℕ → ℕ) (pos : ℕ) : List Char × ℕ :=
  let tabc := markov_cumsum tab
  let seq1 := seq.mapIdx (fun i c =>
    if i < k - 1 then index2xna is_dna (char2index c) else c)
  (List.range' (k - 1) (size - (k - 1))).foldl
    (markov_step k is_dna tabc draws) (seq1, pos)

/-- The `while (rep_counter)` loop shared by the four shuffle branches of
`main` in yamshuf.c: run the shuffle step `total_reps` times on the
evolving sequence, recording after each run the pair of the repeat
number `total_reps - rep_counter` passed to `write_seq` and the sequence
written. -/
def rep_loop (step : List Char → ℕ → Option (List Char × ℕ)) (total_reps : ℕ) :
    ℕ → List Char → ℕ → List (ℕ × List Char) →
      Option (List (ℕ × List Char) × List Char × ℕ)
  | 0, seq, pos, acc => some (acc, seq, pos)
  | rc + 1, seq, pos, acc =>
    match step seq pos with
    | none => none
    | some (s', p') =>
      rep_loop step total_reps rc s' p' (acc ++ [(total_reps - (rc + 1), s')])

/-- The per-sequence body of `main` in yamshuf.c: a sequence with
`size < k * 2` produces no output records at all; otherwise dispatch on
`k == 1` / Euler / `-l` / `-m` and run the repeat loop.  The result is
the list of `(repeat number, sequence)` records handed to `write_seq`
(`none` when the Eulerian construction runs out of fuel). -/
def process_seq (k : ℕ) (use_markov use_linear : Bool) (total_reps : ℕ)
    (is_dna : Bool) (draws : ℕ → ℕ) (pos fuel : ℕ) (seq : List Char) :
    Option (List (ℕ × List Char)) :=
  let size := seq.length
  if size < k * 2 then some []
  else if k = 1 then
    (rep_loop (fun s p => some (shuffle_fisher_yates s draws p))
      total_reps total_reps seq pos []).map (·.1)
  else if ¬use_linear ∧ ¬use_markov then
    (rep_loop (fun s p => shuffle_euler s size k (count_kmers s size k) is_dna
        draws p fuel)
      total_reps total_reps seq pos []).map (·.1)
  else if use_linear then
    (rep_loop (fun s p => some (shuffle_linear s size k draws p))
      total_reps total_reps seq pos []).map (·.1)
  else
    (rep_loop (fun s p => some (shuffle_markov s size k (count_kmers s size k)
        is_dna draws p))
      total_reps total_reps seq pos []).map (·.1)

/-- The "sequence too short to shuffle" warning in `main` of yamshuf.c is
printed only when `args.v` (verbose) is set. -/
def emits_short_warning (v : Bool) (size k : ℕ) : Bool :=
  v && decide (size < k * 2)

end Yamshuf

namespace Yamshuf

open Yam

/-- When the current vertex is already invalid, the picking walk returns
immediately without consuming fuel or draws. -/
lemma euler_walk_pick_invalid (tab : ℕ → ℕ) (k : ℕ) (draws : ℕ → ℕ)
    (invalid : ℕ → Bool) (fuel : ℕ) (path : ℕ → ℕ) (pos u : ℕ)
    (h : invalid u = true) :
    euler_walk_pick tab k draws invalid fuel path pos u = some (path, pos) := by
  cases fuel <;> simp [euler_walk_pick, h]

/-- When the current vertex is already invalid, the marking walk returns
immediately. -/
lemma euler_walk_mark_invalid (k : ℕ) (path : ℕ → ℕ) (fuel : ℕ)
    (invalid : ℕ → Bool) (u : ℕ) (h : invalid u = true) :
    euler_walk_mark k path fuel invalid u = some invalid := by
  cases fuel <;> simp [euler_walk_mark, h]

/-- On the edge table of the sequence AACCA with the final edge CA
removed, the walk starting at vertex C (index 1) can only take the
self-loop edge CC, never reaches an invalid vertex, and therefore
exhausts any amount of fuel. -/
lemma ex_aacca_walk_stuck (tab1 : ℕ → ℕ) (invalid : ℕ → Bool) (draws : ℕ → ℕ)
    (htab5 : tab1 5 = 0) (htab6 : tab1 6 = 1) (htab7 : tab1 7 = 0)
    (htab8 : tab1 8 = 0) (htab9 : tab1 9 = 0) (hinv1 : invalid 1 = false) :
    ∀ fuel path pos,
      euler_walk_pick tab1 2 draws invalid fuel path pos 1 = none := by
  intro fuel
  induction fuel with
  | zero =>
    intro path pos
    simp [euler_walk_pick, hinv1]
  | succ f ih =>
    intro path pos
    have hpick : cumsum_and_pick_next_letter (fun j => tab1 (1 * 5 + j))
        (draws pos) = 1 := by
      simp [cumsum_and_pick_next_letter, htab5, htab6, htab7, htab8, htab9,
        Nat.mod_one]
    simp only [euler_walk_pick, hinv1, Bool.false_eq_true, if_false, hpick]
    have hnext : 1 + next_index 2 1 = 1 := by simp [next_index]
    rw [hnext]
    exact ih _ _

/-- On the AACCA edge table the whole Eulerian-path construction loop
fails for every fuel budget: vertex 0 (A) is reserved as the final
vertex, and the walk from vertex 1 (C) never terminates. -/
lemma ex_aacca_find_path_none (tab1 : ℕ → ℕ) (invalid : ℕ → Bool)
    (path0 : ℕ → ℕ) (draws : ℕ → ℕ) (fuel pos : ℕ)
    (htab5 : tab1 5 = 0) (htab6 : tab1 6 = 1) (htab7 : tab1 7 = 0)
    (htab8 : tab1 8 = 0) (htab9 : tab1 9 = 0)
    (hinv0 : invalid 0 = true) (hinv1 : invalid 1 = false) :
    euler_find_path tab1 2 draws fuel [0, 1, 2, 3, 4]
      ⟨path0, invalid, pos⟩ = none := by
  have hstuck := ex_aacca_walk_stuck tab1 invalid draws htab5 htab6 htab7 htab8
    htab9 hinv1
  simp only [euler_find_path, euler_walk_pick_invalid tab1 2 draws invalid fuel
    path0 pos 0 hinv0, euler_walk_mark_invalid 2 path0 fuel invalid 0 hinv0,
    hstuck fuel path0 pos]

/-- The concrete failing input for the Eulerian shuffle: the DNA
sequence AACCA (length 5, so `|S| = 5 ≥ 2k` for `k = 2`). -/
def aacca : List Char := ['A', 'A', 'C', 'C', 'A']

/-- Claim C1 (status: code_bug).  For the input sequence AACCA with
k = 2, `count_kmers` followed by `shuffle_euler` produces no output for
any draw stream and any fuel bound: after the final edge CA is removed
from the pool, vertex C keeps only the self-loop edge CC, so the random
Eulerian-path construction loops forever (`while (!invalid_vertex[u])`
never exits).  Hence no shuffled sequence with preserved 2-mer counts is
ever produced, contradicting the claim. -/
theorem C1_euler_shuffle_diverges_on_aacca (fuel : ℕ) (draws : ℕ → ℕ) (pos : ℕ) :
    shuffle_euler aacca 5 2 (count_kmers aacca 5 2) true draws pos fuel = none := by
  simp only [shuffle_euler]
  rw [show List.range (pow5 1) = [0, 1, 2, 3, 4] from by decide]
  rw [ex_aacca_find_path_none]
  · decide
  · decide
  · decide
  · decide
  · decide
  · decide
  · decide

/-- Claim C6 (status: code_bug).  `shuffle_fisher_yates` draws the swap
partner as `i + rand % (l - i)` with `l = len - 1`, so the last position
never takes part in any swap; on a sequence of length 2 the loop body is
`swap(seq, 0, 0)` and the output equals the input for every draw stream.
The transposition is therefore produced with probability 0, refuting
the claim that all `n!` permutations are equally likely (and that every
character can end up at every position, including the last). -/
theorem C6_fisher_yates_length2_is_identity (draws : ℕ → ℕ) (pos : ℕ) :
    (shuffle_fisher_yates ['A', 'C'] draws pos).1 = ['A', 'C'] := by
  have h1 : List.range 1 = [0] := by decide
  simp [shuffle_fisher_yates, swap, h1, Nat.mod_one]

/-- Claim C10 (status: confirmed).  A sequence with `size < 2k` produces
no output record at all — the per-sequence body of `main` writes nothing
for it in every shuffle mode and for every repetition count — and the
"too short" warning is emitted exactly in verbose mode. -/
theorem C10_short_sequences_skipped (k : ℕ) (use_markov use_linear : Bool)
    (total_reps : ℕ) (is_dna v : Bool) (draws : ℕ → ℕ) (pos fuel : ℕ)
    (seq : List Char) (h : seq.length < k * 2) :
    process_seq k use_markov use_linear total_reps is_dna draws pos fuel seq =
      some [] ∧
    emits_short_warning v seq.length k = v := by
  refine ⟨?_, ?_⟩
  · simp [process_seq, h]
  · simp [emits_short_warning, h]

/-- Witness for C10: the length-4 sequence ACGT with the default k = 3
(4 < 6) is skipped in the default Euler mode with five repetitions. -/
theorem C10_short_sequences_skipped_witness :
    (['A', 'C', 'G', 'T'] : List Char).length < 3 * 2 ∧
    process_seq 3 false false 5 true (fun _ => 0) 0 0 ['A', 'C', 'G', 'T'] =
      some [] :=
  ⟨by decide,
    (C10_short_sequences_skipped 3 false false 5 true true (fun _ => 0) 0 0
      ['A', 'C', 'G', 'T'] (by decide)).1⟩

end Yamshuf

namespace Yamscan

open Yam

/-- `AMBIGUITY_SCORE` from yamscan.c: the sentinel score of the fifth
(non-standard-letter) PWM row. -/
def ambiguity_score : ℤ := -10000000

/-- C `INT_MAX`, the threshold value marking a non-scoring motif. -/
def int_max : ℤ := 2147483647

/-- `MIN_BKG_VALUE` from yamscan.c. -/
def min_bkg_value : ℚ := 1 / 1000

/-- The fields of `motif_t` from yamscan.c used by the verified code
paths.  The flat arrays `pwm[let + pos*5]` and `pwm_rc[let + pos*5]` are
modelled as curried functions `pos ↦ letter ↦ score`; the CDF is kept
outside the structure (in the C source it is a pointer into the
per-thread scratch buffer). -/
structure Motif where
  size : ℕ
  pwm : ℕ → ℕ → ℤ
  pwm_rc : ℕ → ℕ → ℤ
  threshold : ℤ
  min : ℤ
  max : ℤ
  max_score : ℤ
  min_score : ℤ
  cdf_max : ℤ
  cdf_offset : ℤ
  cdf_size : ℕ

/-- `init_motif` from yamscan.c, restricted to the scoring fields: all
counters zero, PWM rows zero except the fifth column, which is pinned to
the ambiguity sentinel in both orientations. -/
def init_motif : Motif where
  size := 0
  pwm := fun _ j => if j = 4 then ambiguity_score else 0
  pwm_rc := fun _ j => if j = 4 then ambiguity_score else 0
  threshold := 0
  min := 0
  max := 0
  max_score := 0
  min_score := 0
  cdf_max := 0
  cdf_offset := 0
  cdf_size := 0

/-- `set_score` from yamscan.c: `pwm[char2index[let] + pos*5] = score`. -/
def set_score (m : Motif) (c : Char) (pos : ℕ) (score : ℤ) : Motif :=
  { m with pwm := fun p j =>
      if p = pos ∧ j = char2index c then score else m.pwm p j }

/-- `set_score_rc` from yamscan.c. -/
def set_score_rc (m : Motif) (c : Char) (pos : ℕ) (score : ℤ) : Motif :=
  { m with pwm_rc := fun p j =>
      if p = pos ∧ j = char2index c then score else m.pwm_rc p j }

/-- `get_score` from yamscan.c: `pwm[char2Xindex[let] + pos*5]`,
parameterised like the C code by the character-index table in use. -/
def get_score (m : Motif) (c : Char) (pos : ℕ) (tab : Char → ℕ) : ℤ :=
  m.pwm pos (tab c)

/-- `get_score_rc` from yamscan.c. -/
def get_score_rc (m : Motif) (c : Char) (pos : ℕ) (tab : Char → ℕ) : ℤ :=
  m.pwm_rc pos (tab c)

/-- `get_score_i` from yamscan.c: `pwm[i + pos*5]`. -/
def get_score_i (m : Motif) (i pos : ℕ) : ℤ :=
  m.pwm pos i

/-- `get_pwm_max` from yamscan.c: largest PWM entry over the first four
letters of every position, starting from 0. -/
def get_pwm_max (m : Motif) : ℤ :=
  ((List.range m.size).flatMap
      (fun pos => (List.range 4).map (fun j => m.pwm pos j))).foldl
    (fun mx v => if v > mx then v else mx) 0

/-- `get_pwm_min` from yamscan.c: smallest PWM entry over the first four
letters of every position, starting from 0. -/
def get_pwm_min (m : Motif) : ℤ :=
  ((List.range m.size).flatMap
      (fun pos => (List.range 4).map (fun j => m.pwm pos j))).foldl
    (fun mn v => if v < mn then v else mn) 0

/-- The loop body of `fill_pwm_rc` from yamscan.c for one position
`pos`: write the four complementary scores of `pwm[pos]` into row
`size - 1 - pos` of `pwm_rc` (the fifth column is left untouched). -/
def fill_pwm_rc_step (m acc : Motif) (pos : ℕ) : Motif :=
  let acc1 := set_score_rc acc 'A' (m.size - 1 - pos)
    (get_score m 'T' pos char2index)
  let acc2 := set_score_rc acc1 'C' (m.size - 1 - pos)
    (get_score m 'G' pos char2index)
  let acc3 := set_score_rc acc2 'G' (m.size - 1 - pos)
    (get_score m 'C' pos char2index)
  set_score_rc acc3 'T' (m.size - 1 - pos)
    (get_score m 'A' pos char2index)

/-- `fill_pwm_rc` from yamscan.c: run the loop body over all
positions. -/
def fill_pwm_rc (m : Motif) : Motif :=
  (List.range m.size).foldl (fill_pwm_rc_step m) m

/-- `complete_motifs` from yamscan.c (per motif): fill `min`, `max`,
`cdf_offset = min·size`, the reverse-complement PWM, `cdf_max` and
`cdf_size = size·cdf_max + 1`. -/
def complete_motif (m : Motif) : Motif :=
  let m1 := { m with
    min := get_pwm_min m
    max := get_pwm_max m }
  let m2 := { m1 with cdf_offset := m1.min * m1.size }
  let m3 := fill_pwm_rc m2
  let m4 := { m3 with cdf_max := m3.max - m3.min }
  { m4 with cdf_size := (m4.size * m4.cdf_max).toNat + 1 }

/-- `score2pval` from yamscan.c: `cdf[score - cdf_offset]`. -/
def score2pval (m : Motif) (cdf : ℕ → ℚ) (score : ℤ) : ℚ :=
  cdf (score - m.cdf_offset).toNat

end Yamscan

namespace Yamscan

open Yam

/-- `check_and_load_bkg` from yamscan.c: reject missing values (left at
the `-1.0` initialiser), then if the smallest of the four values is
below `MIN_BKG_VALUE` add `MIN_BKG_VALUE` to all four (`VEC_ADD`), then
divide all four by their sum (`VEC_DIV`). -/
def check_and_load_bkg (b0 b1 b2 b3 : ℚ) : Option (ℚ × ℚ × ℚ × ℚ) :=
  if b0 = -1 ∨ b1 = -1 ∨ b2 = -1 ∨ b3 = -1 then none
  else
    let mn := min (min (min b0 b1) b2) b3
    let c0 := if mn < min_bkg_value then b0 + min_bkg_value else b0
    let c1 := if mn < min_bkg_value then b1 + min_bkg_value else b1
    let c2 := if mn < min_bkg_value then b2 + min_bkg_value else b2
    let c3 := if mn < min_bkg_value then b3 + min_bkg_value else b3
    let sum := c0 + c1 + c2 + c3
    some (c0 / sum, c1 / sum, c2 / sum, c3 / sum)

/-- Claim C7, counterexample.  Loading the background
`(0, 0.4, 0.3, 0.3)`: the code adds 0.001 to all four components before
normalising, yielding first component `1/1004 < 0.001` — so after
loading not every component is `≥ MIN_BKG = 0.001` — and the second
pre-normalisation component becomes `0.401` even though `0.4 ≥ 0.001`
was supposedly left untouched by clamping. -/
theorem C7_counterexample :
    check_and_load_bkg 0 (2/5) (3/10) (3/10) =
      some (1/1004, 401/1004, 301/1004, 301/1004) ∧
    ¬ min_bkg_value ≤ (1/1004 : ℚ) := by
  constructor
  · norm_num [check_and_load_bkg, min_bkg_value]
  · norm_num [min_bkg_value]

/-- Claim C7 (status: corrected).  When any loaded background component
is smaller than `MIN_BKG = 0.001`, the loader adds `0.001` to all four
components (also the ones already `≥ 0.001`) and then normalises; when
no component is below the minimum it only normalises.  The result
always sums to 1 and every component is strictly positive, but it can
fall slightly below `0.001`. -/
theorem C7_amended (b0 b1 b2 b3 : ℚ) (h0 : 0 ≤ b0) (h1 : 0 ≤ b1) (h2 : 0 ≤ b2)
    (h3 : 0 ≤ b3) (hs : 0 < b0 + b1 + b2 + b3) :
    ∃ r0 r1 r2 r3,
      check_and_load_bkg b0 b1 b2 b3 = some (r0, r1, r2, r3) ∧
      r0 + r1 + r2 + r3 = 1 ∧
      (0 < r0 ∧ 0 < r1 ∧ 0 < r2 ∧ 0 < r3) ∧
      (min (min (min b0 b1) b2) b3 < min_bkg_value →
        r0 = (b0 + min_bkg_value) / (b0 + b1 + b2 + b3 + 4 * min_bkg_value) ∧
        r1 = (b1 + min_bkg_value) / (b0 + b1 + b2 + b3 + 4 * min_bkg_value) ∧
        r2 = (b2 + min_bkg_value) / (b0 + b1 + b2 + b3 + 4 * min_bkg_value) ∧
        r3 = (b3 + min_bkg_value) / (b0 + b1 + b2 + b3 + 4 * min_bkg_value)) ∧
      (¬ min (min (min b0 b1) b2) b3 < min_bkg_value →
        r0 = b0 / (b0 + b1 + b2 + b3) ∧ r1 = b1 / (b0 + b1 + b2 + b3) ∧
        r2 = b2 / (b0 + b1 + b2 + b3) ∧ r3 = b3 / (b0 + b1 + b2 + b3)) := by
  have hn0 : b0 ≠ -1 := by intro h; rw [h] at h0; norm_num at h0
  have hn1 : b1 ≠ -1 := by intro h; rw [h] at h1; norm_num at h1
  have hn2 : b2 ≠ -1 := by intro h; rw [h] at h2; norm_num at h2
  have hn3 : b3 ≠ -1 := by intro h; rw [h] at h3; norm_num at h3
  by_cases hmn : min (min (min b0 b1) b2) b3 < min_bkg_value
  · have hmbv : (0:ℚ) < min_bkg_value := by norm_num [min_bkg_value]
    have hsum : (0:ℚ) < b0 + b1 + b2 + b3 + 4 * min_bkg_value := by linarith
    refine ⟨(b0 + min_bkg_value) / (b0 + b1 + b2 + b3 + 4 * min_bkg_value),
      (b1 + min_bkg_value) / (b0 + b1 + b2 + b3 + 4 * min_bkg_value),
      (b2 + min_bkg_value) / (b0 + b1 + b2 + b3 + 4 * min_bkg_value),
      (b3 + min_bkg_value) / (b0 + b1 + b2 + b3 + 4 * min_bkg_value),
      ?_, ?_, ?_, ?_, ?_⟩
    · have hS : b0 + min_bkg_value + (b1 + min_bkg_value) + (b2 + min_bkg_value) +
          (b3 + min_bkg_value) = b0 + b1 + b2 + b3 + 4 * min_bkg_value := by ring
      simp only [check_and_load_bkg]
      rw [if_neg (by simp [hn0, hn1, hn2, hn3]), if_pos hmn, if_pos hmn,
        if_pos hmn, if_pos hmn, hS]
    · field_simp
      ring
    · refine ⟨?_, ?_, ?_, ?_⟩ <;> exact div_pos (by linarith) hsum
    · intro _
      exact ⟨rfl, rfl, rfl, rfl⟩
    · intro h
      exact absurd hmn h
  · have hge : min_bkg_value ≤ min (min (min b0 b1) b2) b3 := not_lt.mp hmn
    have hb0 : min_bkg_value ≤ b0 := le_trans hge (le_trans
      (le_trans (min_le_left _ _) (min_le_left _ _)) (min_le_left _ _))
    have hb1 : min_bkg_value ≤ b1 := le_trans hge (le_trans
      (le_trans (min_le_left _ _) (min_le_left _ _)) (min_le_right _ _))
    have hb2 : min_bkg_value ≤ b2 := le_trans hge
      (le_trans (min_le_left _ _) (min_le_right _ _))
    have hb3 : min_bkg_value ≤ b3 := le_trans hge (min_le_right _ _)
    have hmbv : (0:ℚ) < min_bkg_value := by norm_num [min_bkg_value]
    refine ⟨b0 / (b0 + b1 + b2 + b3), b1 / (b0 + b1 + b2 + b3),
      b2 / (b0 + b1 + b2 + b3), b3 / (b0 + b1 + b2 + b3), ?_, ?_, ?_, ?_, ?_⟩
    · simp only [check_and_load_bkg]
      rw [if_neg (by simp [hn0, hn1, hn2, hn3]), if_neg hmn, if_neg hmn,
        if_neg hmn, if_neg hmn]
    · field_simp
    · refine ⟨?_, ?_, ?_, ?_⟩ <;> exact div_pos (by linarith) hs
    · intro h
      exact absurd h hmn
    · intro _
      exact ⟨rfl, rfl, rfl, rfl⟩

/-- Witness for C7's amended theorem at a concrete background with a
component below the minimum: `(0.0005, 0.4, 0.3, 0.2995)`. -/
theorem C7_amended_witness :
    (0:ℚ) ≤ 1/2000 ∧ (0:ℚ) < 1/2000 + 2/5 + 3/10 + 599/2000 ∧
    ∃ r0 r1 r2 r3,
      check_and_load_bkg (1/2000) (2/5) (3/10) (599/2000) =
        some (r0, r1, r2, r3) ∧
      r0 + r1 + r2 + r3 = 1 ∧
      (0 < r0 ∧ 0 < r1 ∧ 0 < r2 ∧ 0 < r3) ∧
      (min (min (min (1/2000 : ℚ) (2/5)) (3/10)) (599/2000) < min_bkg_value →
        r0 = (1/2000 + min_bkg_value) /
          (1/2000 + 2/5 + 3/10 + 599/2000 + 4 * min_bkg_value) ∧
        r1 = (2/5 + min_bkg_value) /
          (1/2000 + 2/5 + 3/10 + 599/2000 + 4 * min_bkg_value) ∧
        r2 = (3/10 + min_bkg_value) /
          (1/2000 + 2/5 + 3/10 + 599/2000 + 4 * min_bkg_value) ∧
        r3 = (599/2000 + min_bkg_value) /
          (1/2000 + 2/5 + 3/10 + 599/2000 + 4 * min_bkg_value)) ∧
      (¬ min (min (min (1/2000 : ℚ) (2/5)) (3/10)) (599/2000) < min_bkg_value →
        r0 = (1/2000 : ℚ) / (1/2000 + 2/5 + 3/10 + 599/2000) ∧
        r1 = (2/5 : ℚ) / (1/2000 + 2/5 + 3/10 + 599/2000) ∧
        r2 = (3/10 : ℚ) / (1/2000 + 2/5 + 3/10 + 599/2000) ∧
        r3 = (599/2000 : ℚ) / (1/2000 + 2/5 + 3/10 + 599/2000)) :=
  ⟨by norm_num, by norm_num,
    C7_amended (1/2000) (2/5) (3/10) (599/2000) (by norm_num) (by norm_num)
      (by norm_num) (by norm_num) (by norm_num)⟩

end Yamscan

namespace Yamscan

open Yam

/-- `int_to_char_array` from yamscan.c: render `__N<N>`. -/
def int_to_char_array (n : ℕ) : String := "__N" ++ toString n

/-- `dedup_char_array` from yamscan.c: append the `__N<N>` suffix to the
name when it fits in the buffer (the stored suffix length includes the
terminating NUL, hence the `+ 1`); returns `none` on overflow. -/
def dedup_char_array (arr : String) (arr_max_len n : ℕ) : Option String :=
  let dedup := int_to_char_array n
  if dedup.length + 1 ≤ arr_max_len - arr.length then some (arr ++ dedup)
  else none

/-- The flag-computation loop of `find_motif_dupes`: hash every name
into a set and flag later occurrences — but the loop runs only for
`i < n - 1`, so the last motif name is never examined. -/
def motif_dup_flags (names : List String) : ℕ → Bool :=
  ((List.range (names.length - 1)).foldl
      (fun (st : List String × (ℕ → Bool)) i =>
        if names.getD i "" ∈ st.1 then
          (st.1, fun x => if x = i then true else st.2 x)
        else (names.getD i "" :: st.1, st.2))
      ([], fun _ => false)).2

/-- `find_motif_dupes` from yamscan.c: with a single motif return
immediately; otherwise compute the duplicate flags; if any name is
flagged either abort (`none`, when `-d` is not given) or append
`__N<one-based index>` to each flagged name (aborting when a name
overflows `MAX_NAME_SIZE = 256`). -/
def find_motif_dupes (names : List String) (dedup : Bool) :
    Option (List String) :=
  if names.length = 1 then some names
  else
    let flags := motif_dup_flags names
    let dup_count := ((List.range names.length).filter (fun i => flags i)).length
    if dup_count = 0 then some names
    else if dedup then
      (List.range names.length).foldl
        (fun acc i =>
          match acc with
          | none => none
          | some ns =>
            if flags i then
              match dedup_char_array (ns.getD i "") 256 (i + 1) with
              | none => none
              | some s' => some (ns.set i s')
            else some ns)
        (some names)
    else none

/-- Claim C5 (status: code_bug).  The hashing loop of `find_motif_dupes`
stops at `n - 1` and never examines the last motif name, while
`find_seq_dupes` scans all `n` names.  A file with exactly two motifs
both named JUN is therefore not detected at all: without `-d` the
process does not abort, and with `-d` nothing is renamed — both
contradict the claim.  A duplicate that is not in the last position is
handled as the claim describes (third and fourth conjuncts). -/
theorem C5_last_duplicate_not_detected :
    find_motif_dupes ["JUN", "JUN"] false = some ["JUN", "JUN"] ∧
    find_motif_dupes ["JUN", "JUN"] true = some ["JUN", "JUN"] ∧
    find_motif_dupes ["JUN", "JUN", "FOS"] false = none ∧
    find_motif_dupes ["JUN", "JUN", "FOS"] true =
      some ["JUN", "JUN__N2", "FOS"] := by
  refine ⟨?_, ?_, ?_, ?_⟩ <;> rfl

/-- `score_subseq` from yamscan.c: forward window score
`Σ_i pwm[seq[i+offset]][i]` (the `+=` loop as a sum). -/
def score_subseq (m : Motif) (seq : List Char) (offset : ℕ)
    (tab : Char → ℕ) : ℤ :=
  ∑ i ∈ Finset.range m.size, get_score m (seq.getD (i + offset) 'N') i tab

/-- `score_subseq_rev` from yamscan.c: the same window scored against
the reverse-complement PWM. -/
def score_subseq_rev (m : Motif) (seq : List Char) (offset : ℕ)
    (tab : Char → ℕ) : ℤ :=
  ∑ i ∈ Finset.range m.size, get_score_rc m (seq.getD (i + offset) 'N') i tab

/-- One output record of the scanner (`PRINT_RES` / `PRINT_RES_BED`):
1-based start, inclusive end, strand, score, reported p-value and the
matched subsequence. -/
structure Hit where
  start : ℕ
  stop : ℕ
  strand : Char
  score : ℤ
  pval : ℚ
  matched : List Char
  deriving DecidableEq

/-- The records printed by `score_seq` from yamscan.c: slide over
offsets `0 ≤ i < seq_size - mot_size + 1`; with `args.scan_rc` the fused
loop (`score_subseq_rc`) reports forward and reverse-complement hits at
each offset, otherwise only forward hits; a hit is reported when its
score exceeds `threshold - 1`.  A sequence shorter than the motif, or a
motif with `threshold == INT_MAX`, produces nothing. -/
def score_seq (m : Motif) (cdf : ℕ → ℚ) (seq : List Char) (seq_size : ℕ)
    (scan_rc : Bool) (tab : Char → ℕ) : List Hit :=
  if seq_size < m.size ∨ m.threshold = int_max then []
  else
    let threshold := m.threshold - 1
    (List.range (seq_size - m.size + 1)).flatMap (fun i =>
      let fwd :=
        if score_subseq m seq i tab > threshold then
          [⟨i + 1, i + m.size, '+', score_subseq m seq i tab,
            score2pval m cdf (score_subseq m seq i tab),
            (seq.drop i).take m.size⟩]
        else []
      let rev :=
        if scan_rc ∧ score_subseq_rev m seq i tab > threshold then
          [⟨i + 1, i + m.size, '-', score_subseq_rev m seq i tab,
            score2pval m cdf (score_subseq_rev m seq i tab),
            (seq.drop i).take m.size⟩]
        else []
      fwd ++ rev)

/-- The records printed by `score_seq_in_bed` from yamscan.c: scanning
is restricted to the BED region `[starts, ends)`; the loop runs
`for (i = bed_start_i - 1; i < bed_end_i - mot_size; i++)` — i.e. over
offsets `starts ≤ i < ends - mot_size` — and dispatches on the region
strand (`.` scans both orientations, `+` forward only, `-` reverse
only).  A region smaller than the motif, or a motif with
`threshold == INT_MAX`, produces nothing. -/
def score_seq_in_bed (m : Motif) (cdf : ℕ → ℚ) (seq : List Char)
    (starts ends : ℕ) (strand : Char) (tab : Char → ℕ) : List Hit :=
  if ends - starts < m.size ∨ m.threshold = int_max then []
  else
    let threshold := m.threshold - 1
    let offsets := List.range' starts ((ends - m.size) - starts)
    if strand = '.' then
      offsets.flatMap (fun i =>
        let fwd :=
          if score_subseq m seq i tab > threshold then
            [⟨i + 1, i + m.size, '+', score_subseq m seq i tab,
              score2pval m cdf (score_subseq m seq i tab),
              (seq.drop i).take m.size⟩]
          else []
        let rev :=
          if score_subseq_rev m seq i tab > threshold then
            [⟨i + 1, i + m.size, '-', score_subseq_rev m seq i tab,
              score2pval m cdf (score_subseq_rev m seq i tab),
              (seq.drop i).take m.size⟩]
          else []
        fwd ++ rev)
    else if strand = '+' then
      offsets.flatMap (fun i =>
        if score_subseq m seq i tab > threshold then
          [⟨i + 1, i + m.size, '+', score_subseq m seq i tab,
            score2pval m cdf (score_subseq m seq i tab),
            (seq.drop i).take m.size⟩]
        else [])
    else if strand = '-' then
      offsets.flatMap (fun i =>
        if score_subseq_rev m seq i tab > threshold then
          [⟨i + 1, i + m.size, '-', score_subseq_rev m seq i tab,
            score2pval m cdf (score_subseq_rev m seq i tab),
            (seq.drop i).take m.size⟩]
        else [])
    else []

end Yamscan

namespace Yamscan

open Yam

/-- A length-4 motif whose PWM is all zero (plus the ambiguity sentinel
row) with threshold 0: every window consisting of standard bases scores
0 > threshold - 1, so every offset that the scanner examines produces a
hit.  Used to observe exactly which offsets the BED loop scans. -/
def c4_motif : Motif := { init_motif with size := 4 }

/-- Claim C4 (status: code_bug).  For the BED region `(10, 20)` and a
motif of size 4, the loop `for (i = bed_start_i - 1; i < bed_end_i -
mot_size; i++)` scans 0-based offsets 10..15 only: the printed 1-based
start coordinates are 11..16, and no row for 0-based offset 16
(1-based start 17) is produced, although the window at offset 16 lies
entirely inside the region — the claim requires rows for all offsets
`start ≤ i ≤ end - L`, i.e. 10..16. -/
theorem C4_bed_loop_misses_last_window :
    (score_seq_in_bed c4_motif (fun _ => 1) (List.replicate 100 'A') 10 20 '+'
        char2index).map (fun h => h.start) = [11, 12, 13, 14, 15, 16] ∧
    (10 : ℕ) + 1 ≤ 17 ∧ 17 ≤ (20 - 4) + 1 := by
  refine ⟨?_, by norm_num, by norm_num⟩
  rfl

end Yamscan

namespace Yamscan

open Yam

lemma fill_pwm_rc_step_pwm (m acc : Motif) (pos : ℕ) :
    (fill_pwm_rc_step m acc pos).pwm = acc.pwm := rfl

lemma fill_pwm_rc_step_size (m acc : Motif) (pos : ℕ) :
    (fill_pwm_rc_step m acc pos).size = acc.size := rfl

/-- Pointwise effect of one `fill_pwm_rc` loop iteration on the first
four columns of `pwm_rc`. -/
lemma fill_pwm_rc_step_rc (m acc : Motif) (pos q b : ℕ) (hb : b < 4) :
    (fill_pwm_rc_step m acc pos).pwm_rc q b =
      if q = m.size - 1 - pos then m.pwm pos (3 - b) else acc.pwm_rc q b := by
  interval_cases b <;>
    simp [fill_pwm_rc_step, set_score_rc, get_score, char2index] <;>
    split <;> simp_all

/-- The fifth column of `pwm_rc` is untouched by one iteration. -/
lemma fill_pwm_rc_step_rc4 (m acc : Motif) (pos q : ℕ) :
    (fill_pwm_rc_step m acc pos).pwm_rc q 4 = acc.pwm_rc q 4 := by
  simp [fill_pwm_rc_step, set_score_rc, get_score, char2index]

lemma fill_pwm_rc_fold_pwm (m : Motif) (l : List ℕ) (acc : Motif) :
    (l.foldl (fill_pwm_rc_step m) acc).pwm = acc.pwm := by
  induction l generalizing acc with
  | nil => rfl
  | cons p rest ih => rw [List.foldl_cons, ih, fill_pwm_rc_step_pwm]

lemma fill_pwm_rc_fold_untouched (m : Motif) (l : List ℕ) (acc : Motif)
    (q b : ℕ) (hb : b < 4) (h : ∀ pos ∈ l, q ≠ m.size - 1 - pos) :
    (l.foldl (fill_pwm_rc_step m) acc).pwm_rc q b = acc.pwm_rc q b := by
  induction l generalizing acc with
  | nil => rfl
  | cons p rest ih =>
    rw [List.foldl_cons, ih _ (fun pos hp => h pos (List.mem_cons_of_mem _ hp)),
      fill_pwm_rc_step_rc m acc p q b hb,
      if_neg (h p (List.mem_cons_self _ _))]

lemma fill_pwm_rc_fold_untouched4 (m : Motif) (l : List ℕ) (acc : Motif)
    (q : ℕ) : (l.foldl (fill_pwm_rc_step m) acc).pwm_rc q 4 = acc.pwm_rc q 4 := by
  induction l generalizing acc with
  | nil => rfl
  | cons p rest ih => rw [List.foldl_cons, ih, fill_pwm_rc_step_rc4]

/-- Characterisation of `fill_pwm_rc`: for `q < size` and a standard
letter `b`, row `q` of the reverse-complement PWM holds the
complementary score of mirrored position `size - 1 - q`. -/
lemma fill_pwm_rc_spec (m : Motif) (q b : ℕ) (hq : q < m.size) (hb : b < 4) :
    (fill_pwm_rc m).pwm_rc q b = m.pwm (m.size - 1 - q) (3 - b) := by
  unfold fill_pwm_rc
  obtain ⟨pos, hpos, hqpos⟩ : ∃ pos, pos < m.size ∧ q = m.size - 1 - pos :=
    ⟨m.size - 1 - q, by omega, by omega⟩
  have hsz : (m.size - pos - 1) + 1 = m.size - pos := by omega
  have hsplit : List.range m.size =
      List.range pos ++ pos :: List.range' (pos + 1) (m.size - pos - 1) := by
    have h1 : List.range' 0 m.size =
        List.range' 0 pos ++ List.range' (0 + pos) (m.size - pos) := by
      rw [List.range'_append_1]
      congr 1
      omega
    rw [List.range_eq_range', h1, List.range_eq_range' pos, Nat.zero_add,
      ← hsz, List.range'_succ]
    simp
  rw [hsplit, List.foldl_append, List.foldl_cons]
  rw [fill_pwm_rc_fold_untouched m _ _ q b hb ?later]
  case later =>
    intro p hp
    have hp' := List.mem_range'.mp hp
    omega
  rw [fill_pwm_rc_step_rc m _ pos q b hb, if_pos hqpos]
  congr 1
  omega

end Yamscan

namespace Yamscan

open Yam

/-- The complement of a base character, written through the codec of the
program: A↔T, C↔G (either case, U treated as T), every non-standard
character maps to N.  This is the mathematical reverse-complement
operation the specification speaks about. -/
def comp_char (c : Char) : Char :=
  match char2index c with
  | 0 => 'T' | 1 => 'G' | 2 => 'C' | 3 => 'A' | _ => 'N'

/-- The reverse complement of a sequence. -/
def revcomp (seq : List Char) : List Char := (seq.map comp_char).reverse

lemma char2index_comp_char (c : Char) :
    char2index (comp_char c) = if char2index c < 4 then 3 - char2index c
      else 4 := by
  unfold comp_char
  rcases h4 : char2index c with _ | _ | _ | _ | n
  · decide
  · decide
  · decide
  · decide
  · rw [if_neg (by omega)]
    rfl

lemma char2index_lt_5 (c : Char) : char2index c < 5 := by
  unfold char2index
  split <;> omega

lemma revcomp_getD (seq : List Char) (n : ℕ) (hn : n < seq.length) :
    (revcomp seq).getD n 'N' = comp_char (seq.getD (seq.length - 1 - n) 'N') := by
  have hmap : n < (seq.map comp_char).length := by simpa using hn
  have hidx : seq.length - 1 - n < seq.length := by omega
  unfold revcomp
  rw [List.getD_eq_getElem?_getD, List.getElem?_reverse hmap, List.getElem?_map,
    List.length_map, List.getElem?_eq_getElem hidx]
  rw [List.getD_eq_getElem?_getD, List.getElem?_eq_getElem hidx]
  rfl

lemma fill_pwm_rc_fold_size (m : Motif) (l : List ℕ) (acc : Motif) :
    (l.foldl (fill_pwm_rc_step m) acc).size = acc.size := by
  induction l generalizing acc with
  | nil => rfl
  | cons p rest ih => rw [List.foldl_cons, ih, fill_pwm_rc_step_size]

lemma fill_pwm_rc_pwm (m : Motif) : (fill_pwm_rc m).pwm = m.pwm :=
  fill_pwm_rc_fold_pwm m _ m

lemma fill_pwm_rc_size (m : Motif) : (fill_pwm_rc m).size = m.size :=
  fill_pwm_rc_fold_size m _ m

lemma fill_pwm_rc_rc4 (m : Motif) (q : ℕ) :
    (fill_pwm_rc m).pwm_rc q 4 = m.pwm_rc q 4 :=
  fill_pwm_rc_fold_untouched4 m _ m q

/-- Claim C8 (status: confirmed).  For a motif whose ambiguity rows hold
the sentinel (the `init_motif` invariant) and whose reverse-complement
PWM is produced by `fill_pwm_rc`, scoring the reverse complement of a
sequence against the forward PWM at offset `o` equals scoring the
original sequence against the reverse-complement PWM at the mirrored
offset `len - L - o`; this holds for every window, including windows
with non-ACGTU characters, which hit the sentinel row in both
orientations. -/
theorem C8_revcomp_symmetry (m : Motif)
    (hamb : ∀ pos, pos < m.size →
      m.pwm pos 4 = ambiguity_score ∧ m.pwm_rc pos 4 = ambiguity_score)
    (seq : List Char) (o : ℕ) (ho : o + m.size ≤ seq.length) :
    score_subseq (fill_pwm_rc m) (revcomp seq) o char2index =
      score_subseq_rev (fill_pwm_rc m) seq (seq.length - m.size - o)
        char2index := by
  unfold score_subseq score_subseq_rev get_score get_score_rc
  rw [fill_pwm_rc_size, fill_pwm_rc_pwm]
  conv_rhs => rw [← Finset.sum_range_reflect]
  refine Finset.sum_congr rfl ?_
  intro i hi
  have hiL : i < m.size := Finset.mem_range.mp hi
  have hio : i + o < seq.length := by omega
  have hidx : m.size - 1 - i + (seq.length - m.size - o) =
      seq.length - 1 - (i + o) := by omega
  rw [hidx, revcomp_getD seq (i + o) hio]
  set a := char2index (seq.getD (seq.length - 1 - (i + o)) 'N') with ha
  have ha5 : a < 5 := char2index_lt_5 _
  rw [char2index_comp_char]
  rw [← ha]
  by_cases h4 : a < 4
  · rw [if_pos h4, fill_pwm_rc_spec m (m.size - 1 - i) a (by omega) h4]
    congr 1
    omega
  · have ha4 : a = 4 := by omega
    rw [if_neg h4, ha4, fill_pwm_rc_rc4]
    rw [(hamb i hiL).1, (hamb (m.size - 1 - i) (by omega)).2]

/-- Witness motif for C8: length 2, concrete scores, sentinel ambiguity
rows in both orientations. -/
def c8_motif : Motif :=
  { init_motif with
    size := 2
    pwm := fun p j =>
      if j = 4 then ambiguity_score else (p : ℤ) * 10 + (j : ℤ) }

/-- Witness for C8 at a concrete motif, the sequence `aNG` and offset
0 (the window contains a non-standard character). -/
theorem C8_revcomp_symmetry_witness :
    (∀ pos, pos < c8_motif.size →
      c8_motif.pwm pos 4 = ambiguity_score ∧
      c8_motif.pwm_rc pos 4 = ambiguity_score) ∧
    0 + c8_motif.size ≤ (['a', 'N', 'G'] : List Char).length ∧
    score_subseq (fill_pwm_rc c8_motif) (revcomp ['a', 'N', 'G']) 0 char2index =
      score_subseq_rev (fill_pwm_rc c8_motif) ['a', 'N', 'G']
        ((['a', 'N', 'G'] : List Char).length - c8_motif.size - 0)
        char2index :=
  ⟨by decide, by decide,
    C8_revcomp_symmetry c8_motif (by decide) ['a', 'N', 'G'] 0 (by decide)⟩

end Yamscan

namespace Yamscan

open Yam

/-- The threshold-search loop of `set_threshold`
(`for (i = 0; i < cdf_size; i++) if (cdf[i] < pvalue) { threshold_i = i;
break; }`): scan `rem` indices starting at `i`; return the first index
whose CDF entry is below `pvalue`, or `i + rem` when none is
(`threshold_i` keeps its initialiser `cdf_size`). -/
def find_threshold_i (cdf : ℕ → ℚ) (pvalue : ℚ) : ℕ → ℕ → ℕ
  | i, 0 => i
  | i, rem + 1 =>
    if cdf i < pvalue then i else find_threshold_i cdf pvalue (i + 1) rem

/-- The per-position maximum of the four letter scores computed inside
`set_threshold` (`max_pos`). -/
def pos_max (m : Motif) (i : ℕ) : ℤ :=
  ((List.range 3).map (fun j => get_score_i m (j + 1) i)).foldl
    (fun mx v => if v > mx then v else mx) (get_score_i m 0 i)

/-- The per-position minimum of the four letter scores computed inside
`set_threshold` (`min_pos`). -/
def pos_min (m : Motif) (i : ℕ) : ℤ :=
  ((List.range 3).map (fun j => get_score_i m (j + 1) i)).foldl
    (fun mn v => if v < mn then v else mn) (get_score_i m 0 i)

/-- `set_threshold` from yamscan.c.  The native-axis threshold is
computed by `threshold -= min; threshold *= size;
threshold = threshold_i - threshold` (the C statement runs in uint64 and
is cast back to int; for the value ranges the program admits this equals
the integer value modelled here).  Then `max_score`/`min_score` are
accumulated from the PWM, an unreachable p-value
(`min_pvalue / pvalue > 1.0001`) forces `threshold = INT_MAX`, `-0`
forces 0, and consensus mode forces `max_score`. -/
def set_threshold (m : Motif) (cdf : ℕ → ℚ) (pvalue : ℚ)
    (thresh0 is_consensus : Bool) : Motif :=
  let threshold_i := find_threshold_i cdf pvalue 0 m.cdf_size
  let t1 := m.threshold - m.min
  let t2 := t1 * (m.size : ℤ)
  let t3 := (threshold_i : ℤ) - t2
  let new_max := m.max_score + ∑ i ∈ Finset.range m.size, pos_max m i
  let new_min := m.min_score + ∑ i ∈ Finset.range m.size, pos_min m i
  let min_pvalue := cdf (new_max - m.cdf_offset).toNat
  let thr1 := if min_pvalue / pvalue > 10001 / 10000 then int_max else t3
  let thr2 := if thresh0 then 0 else if is_consensus then new_max else thr1
  { m with threshold := thr2, max_score := new_max, min_score := new_min }

lemma find_threshold_i_bounds (cdf : ℕ → ℚ) (pvalue : ℚ) :
    ∀ rem i, i ≤ find_threshold_i cdf pvalue i rem ∧
      find_threshold_i cdf pvalue i rem ≤ i + rem := by
  intro rem
  induction rem with
  | zero => intro i; simp [find_threshold_i]
  | succ r ih =>
    intro i
    unfold find_threshold_i
    split
    · omega
    · have := ih (i + 1)
      omega

lemma find_threshold_i_found (cdf : ℕ → ℚ) (pvalue : ℚ) :
    ∀ rem i, find_threshold_i cdf pvalue i rem < i + rem →
      cdf (find_threshold_i cdf pvalue i rem) < pvalue := by
  intro rem
  induction rem with
  | zero => intro i h; unfold find_threshold_i at h; omega
  | succ r ih =>
    intro i h
    unfold find_threshold_i at h ⊢
    split
    · assumption
    · rename_i hnot
      rw [if_neg hnot] at h
      exact ih (i + 1) (by omega)

lemma find_threshold_i_minimal (cdf : ℕ → ℚ) (pvalue : ℚ) :
    ∀ rem i j, i ≤ j → j < find_threshold_i cdf pvalue i rem →
      ¬ cdf j < pvalue := by
  intro rem
  induction rem with
  | zero =>
    intro i j hij hj
    simp [find_threshold_i] at hj
    omega
  | succ r ih =>
    intro i j hij hj
    unfold find_threshold_i at hj
    by_cases hc : cdf i < pvalue
    · rw [if_pos hc] at hj
      omega
    · rw [if_neg hc] at hj
      rcases Nat.eq_or_lt_of_le hij with heq | hlt
    
      · rwa [← heq]
      · exact ih (i + 1) j hlt hj

/-- Claim C2 (status: confirmed).  For a freshly initialised motif
(`threshold = 0` as set by `init_motif`) with
`cdf_offset = min · size` (as set by `complete_motifs`), when `-0` is
not given and consensus mode is off, `set_threshold`:
(1) makes the scanner's hit test `score > threshold - 1` equivalent to
`score ≥ threshold`;
(2) if the motif cannot reach the requested p-value (the p-value of
`max_score` exceeds `pvalue · 1.0001`), sets `threshold = INT_MAX`, and
the scanner then emits no hit on any sequence;
(3) otherwise, whenever some CDF entry is below `pvalue`, sets the
threshold to the smallest integer score `x` on the motif's native axis
with `cdf[x - cdf_offset] < pvalue` (i.e. `k* + min·L`). -/
theorem C2_threshold_spec (m : Motif) (cdf : ℕ → ℚ) (pvalue : ℚ)
    (h0 : m.threshold = 0) (hoff : m.cdf_offset = m.min * m.size) :
    (∀ s : ℤ, s > (set_threshold m cdf pvalue false false).threshold - 1 ↔
      (set_threshold m cdf pvalue false false).threshold ≤ s) ∧
    (cdf (((set_threshold m cdf pvalue false false).max_score -
        m.cdf_offset).toNat) / pvalue > 10001 / 10000 →
      (set_threshold m cdf pvalue false false).threshold = int_max ∧
      ∀ seq n rc tab,
        score_seq (set_threshold m cdf pvalue false false) cdf seq n rc tab
          = []) ∧
    (¬ cdf (((set_threshold m cdf pvalue false false).max_score -
        m.cdf_offset).toNat) / pvalue > 10001 / 10000 →
      (∃ i, i < m.cdf_size ∧ cdf i < pvalue) →
      IsLeast {x : ℤ | m.cdf_offset ≤ x ∧ x < m.cdf_offset + m.cdf_size ∧
        cdf (x - m.cdf_offset).toNat < pvalue}
        (set_threshold m cdf pvalue false false).threshold) := by
  have hms : (set_threshold m cdf pvalue false false).max_score =
      m.max_score + ∑ i ∈ Finset.range m.size, pos_max m i := rfl
  have hthr_eq : (set_threshold m cdf pvalue false false).threshold =
      if cdf ((m.max_score + ∑ i ∈ Finset.range m.size, pos_max m i) -
          m.cdf_offset).toNat / pvalue > 10001 / 10000 then int_max
      else (find_threshold_i cdf pvalue 0 m.cdf_size : ℤ) -
        (m.threshold - m.min) * (m.size : ℤ) := rfl
  refine ⟨?_, ?_, ?_⟩
  · intro s
    omega
  · intro hratio
    rw [hms] at hratio
    have hthr : (set_threshold m cdf pvalue false false).threshold = int_max := by
      rw [hthr_eq, if_pos hratio]
    refine ⟨hthr, ?_⟩
    intro seq n rc tab
    unfold score_seq
    rw [if_pos (Or.inr hthr)]
  · intro hratio hex
    rw [hms] at hratio
    set ti := find_threshold_i cdf pvalue 0 m.cdf_size with hti
    have hthr : (set_threshold m cdf pvalue false false).threshold =
        (ti : ℤ) - (m.threshold - m.min) * (m.size : ℤ) := by
      rw [hthr_eq, if_neg hratio]
    have hre : (ti : ℤ) - (m.threshold - m.min) * (m.size : ℤ) =
        (ti : ℤ) + m.min * (m.size : ℤ) := by rw [h0]; ring
    rw [hthr, hre, ← hoff]
    have hbounds := find_threshold_i_bounds cdf pvalue m.cdf_size 0
    obtain ⟨i0, hi0, hcdf0⟩ := hex
    have hlt : ti < m.cdf_size := by
      by_contra hge
      have hlt0 : i0 < ti := by omega
      exact find_threshold_i_minimal cdf pvalue m.cdf_size 0 i0 (Nat.zero_le _)
        hlt0 hcdf0
    have hfound : cdf ti < pvalue :=
      find_threshold_i_found cdf pvalue m.cdf_size 0 (by omega)
    constructor
    · refine ⟨by omega, by omega, ?_⟩
      have harith : ((ti : ℤ) + m.cdf_offset - m.cdf_offset) = (ti : ℤ) := by
        ring
      rw [harith]
      simpa using hfound
    · rintro y ⟨hy1, hy2, hy3⟩
      have hjge : ¬ (y - m.cdf_offset).toNat < ti := by
        intro hlt'
        exact find_threshold_i_minimal cdf pvalue m.cdf_size 0 _
          (Nat.zero_le _) hlt' hy3
      omega

/-- Witness motif for C2: one position with scores (5, 0, 0, -3),
`min = -3`, `max = 5`, `cdf_size = 9`, `cdf_offset = -3`. -/
def c2_motif : Motif :=
  { init_motif with
    size := 1
    pwm := fun p j =>
      if j = 4 then ambiguity_score
      else if p = 0 ∧ j = 0 then 5 else if p = 0 ∧ j = 3 then -3 else 0
    min := -3
    max := 5
    cdf_max := 8
    cdf_offset := -3
    cdf_size := 9 }

/-- Witness CDF for C2: 1 on entries 0..3, 1/20 above. -/
def c2_cdf (i : ℕ) : ℚ := if i ≤ 3 then 1 else 1 / 20

/-- Witness for C2 at the concrete motif and CDF with `pvalue = 1/10`:
the hypotheses hold and in particular the derived threshold is the
least qualifying native score. -/
theorem C2_threshold_spec_witness :
    (c2_motif.threshold = 0 ∧ c2_motif.cdf_offset = c2_motif.min * c2_motif.size) ∧
    IsLeast {x : ℤ | c2_motif.cdf_offset ≤ x ∧
        x < c2_motif.cdf_offset + c2_motif.cdf_size ∧
        c2_cdf (x - c2_motif.cdf_offset).toNat < 1 / 10}
      (set_threshold c2_motif c2_cdf (1 / 10) false false).threshold :=
  ⟨⟨by decide, by decide⟩,
    (C2_threshold_spec c2_motif c2_cdf (1 / 10) (by decide) (by decide)).2.2
      (by
        have hmax : (set_threshold c2_motif c2_cdf (1 / 10) false
            false).max_score = 5 := by decide
        rw [hmax]
        norm_num [c2_cdf, c2_motif])
      ⟨4, by decide, by norm_num [c2_cdf]⟩⟩

end Yamscan

namespace Yamscan

open Yam

/-- `ERASE_ARRAY(motif->cdf, n)` inside `fill_cdf`: zero the first `n`
entries. -/
def zero_first (a : ℕ → ℚ) (n : ℕ) : ℕ → ℚ := fun x => if x < n then 0 else a x

/-- The inner convolution loop of `fill_cdf` for one letter:
`for (k = 0; k <= max_step; k++) cdf[k+s] += tmp_pdf[k] * bkg[j]`. -/
def convolve_letter (a tmp : ℕ → ℚ) (s : ℕ) (b : ℚ) (max_step : ℕ) : ℕ → ℚ :=
  (List.range (max_step + 1)).foldl
    (fun acc kk => fun x => if x = kk + s then acc x + tmp kk * b else acc x) a

/-- One iteration (position `i`) of the PDF construction in `fill_cdf`:
snapshot the array into `tmp_pdf`, zero the first
`i·cdf_max + cdf_max + 1` entries, then convolve the four letter scores
(shifted by `-min`) against the snapshot. -/
def fill_cdf_pos (m : Motif) (bkg : ℕ → ℚ) (a : ℕ → ℚ) (i : ℕ) : ℕ → ℚ :=
  let max_step := i * m.cdf_max.toNat
  let a1 := zero_first a (max_step + m.cdf_max.toNat + 1)
  (List.range 4).foldl
    (fun acc j =>
      convolve_letter acc a (get_score_i m j i - m.min).toNat (bkg j) max_step)
    a1

/-- The PDF after the first `n` positions of `fill_cdf`, starting from
the all-ones initialisation (`for (i = 0; i < cdf_size; i++)
cdf[i] = 1.0`; entries the algorithm never touches keep that value). -/
def dp_upto (m : Motif) (bkg : ℕ → ℚ) (n : ℕ) : ℕ → ℚ :=
  (List.range n).foldl (fill_cdf_pos m bkg) (fun _ => 1)

/-- The full PDF of `fill_cdf` (all `size` positions). -/
def fill_cdf_dp (m : Motif) (bkg : ℕ → ℚ) : ℕ → ℚ :=
  dp_upto m bkg m.size

/-- The normalisation step of `fill_cdf`: if `|Σ pdf - 1| > 1e-4`,
divide every entry by the sum. -/
def fill_cdf_norm (m : Motif) (a : ℕ → ℚ) : ℕ → ℚ :=
  let pdf_sum := ∑ x ∈ Finset.range m.cdf_size, a x
  if |pdf_sum - 1| > 1 / 10000 then fun x => a x / pdf_sum else a

/-- The reverse cumulative sum of `fill_cdf`
(`for (i = cdf_size - 2; i < -1; i--) cdf[i] += cdf[i+1]`). -/
def fill_cdf_suffix (m : Motif) (a : ℕ → ℚ) : ℕ → ℚ :=
  (List.range (m.cdf_size - 1)).reverse.foldl
    (fun acc i => fun x => if x = i then acc x + acc (i + 1) else acc x) a

/-- `fill_cdf` from yamscan.c: PDF construction by iterated
convolution, normalisation, then the upper-tail cumulative sum. -/
def fill_cdf (m : Motif) (bkg : ℕ → ℚ) : ℕ → ℚ :=
  fill_cdf_suffix m (fill_cdf_norm m (fill_cdf_dp m bkg))

/-- Pointwise value of the convolution loop: entry `x` gains
`tmp[x-s]·b` exactly when `x` is reachable as `k + s` with
`k ≤ max_step`. -/
lemma convolve_letter_apply (a tmp : ℕ → ℚ) (s : ℕ) (b : ℚ) :
    ∀ M x, convolve_letter a tmp s b M x =
      a x + (if s ≤ x ∧ x - s ≤ M then tmp (x - s) * b else 0) := by
  intro M
  induction M with
  | zero =>
    intro x
    show (List.range 1).foldl _ a x = _
    rw [show List.range 1 = [0] from rfl]
    simp only [List.foldl_cons, List.foldl_nil, Nat.zero_add]
    by_cases hx : x = s
    · subst hx
      rw [if_pos rfl, if_pos (by omega)]
      simp
    · rw [if_neg (by omega), if_neg (by omega), add_zero]
  | succ M ih =>
    intro x
    have hsucc : convolve_letter a tmp s b (M + 1) x =
        if x = M + 1 + s then convolve_letter a tmp s b M x + tmp (M + 1) * b
        else convolve_letter a tmp s b M x := by
      unfold convolve_letter
      rw [List.range_succ, List.foldl_append, List.foldl_cons, List.foldl_nil]
    rw [hsucc]
    by_cases hx : x = M + 1 + s
    · rw [if_pos hx]
      have hc : convolve_letter a tmp s b M x = a x := by
        rw [ih x, if_neg (by omega), add_zero]
      rw [hc, if_pos (by omega)]
      have hxs : x - s = M + 1 := by omega
      rw [hxs]
    · rw [if_neg hx, ih x]
      by_cases hcond : s ≤ x ∧ x - s ≤ M
      · rw [if_pos hcond, if_pos (by omega)]
      · rw [if_neg hcond, if_neg (by omega)]

/-- Pointwise value of one `fill_cdf` iteration. -/
lemma fill_cdf_pos_apply (m : Motif) (bkg : ℕ → ℚ) (a : ℕ → ℚ) (i x : ℕ) :
    fill_cdf_pos m bkg a i x =
      zero_first a (i * m.cdf_max.toNat + m.cdf_max.toNat + 1) x +
      ∑ j ∈ Finset.range 4,
        (if (get_score_i m j i - m.min).toNat ≤ x ∧
            x - (get_score_i m j i - m.min).toNat ≤ i * m.cdf_max.toNat
         then a (x - (get_score_i m j i - m.min).toNat) * bkg j else 0) := by
  simp only [fill_cdf_pos]
  rw [show List.range 4 = [0, 1, 2, 3] from rfl]
  simp only [List.foldl_cons, List.foldl_nil]
  rw [convolve_letter_apply, convolve_letter_apply, convolve_letter_apply,
    convolve_letter_apply]
  rw [Finset.sum_range_succ, Finset.sum_range_succ, Finset.sum_range_succ,
    Finset.sum_range_one]
  ring

end Yamscan

namespace Yamscan

open Yam

lemma foldl_ifmax_init_le (l : List ℤ) (a : ℤ) :
    a ≤ l.foldl (fun mx v => if v > mx then v else mx) a := by
  induction l generalizing a with
  | nil => exact le_refl a
  | cons x rest ih =>
    rw [List.foldl_cons]
    refine le_trans ?_ (ih _)
    split <;> omega

lemma foldl_ifmax_le_of_mem (l : List ℤ) (a x : ℤ) (hx : x ∈ l) :
    x ≤ l.foldl (fun mx v => if v > mx then v else mx) a := by
  induction l generalizing a with
  | nil => cases hx
  | cons y rest ih =>
    rw [List.foldl_cons]
    rcases List.mem_cons.mp hx with heq | hmem
    · subst heq
      refine le_trans ?_ (foldl_ifmax_init_le rest _)
      split <;> omega
    · exact ih _ hmem

lemma foldl_ifmin_init_ge (l : List ℤ) (a : ℤ) :
    l.foldl (fun mn v => if v < mn then v else mn) a ≤ a := by
  induction l generalizing a with
  | nil => exact le_refl a
  | cons x rest ih =>
    rw [List.foldl_cons]
    refine le_trans (ih _) ?_
    split <;> omega

lemma foldl_ifmin_le_of_mem (l : List ℤ) (a x : ℤ) (hx : x ∈ l) :
    l.foldl (fun mn v => if v < mn then v else mn) a ≤ x := by
  induction l generalizing a with
  | nil => cases hx
  | cons y rest ih =>
    rw [List.foldl_cons]
    rcases List.mem_cons.mp hx with heq | hmem
    · subst heq
      refine le_trans (foldl_ifmin_init_ge rest _) ?_
      split <;> omega
    · exact ih _ hmem

lemma pwm_mem_entries (m : Motif) (pos j : ℕ) (hpos : pos < m.size)
    (hj : j < 4) :
    m.pwm pos j ∈ (List.range m.size).flatMap
      (fun p => (List.range 4).map (fun q => m.pwm p q)) := by
  rw [List.mem_flatMap]
  exact ⟨pos, List.mem_range.mpr hpos,
    List.mem_map.mpr ⟨j, List.mem_range.mpr hj, rfl⟩⟩

lemma get_pwm_max_nonneg (m : Motif) : 0 ≤ get_pwm_max m :=
  foldl_ifmax_init_le _ 0

lemma le_get_pwm_max (m : Motif) (pos j : ℕ) (hpos : pos < m.size)
    (hj : j < 4) : m.pwm pos j ≤ get_pwm_max m :=
  foldl_ifmax_le_of_mem _ 0 _ (pwm_mem_entries m pos j hpos hj)

lemma get_pwm_min_nonpos (m : Motif) : get_pwm_min m ≤ 0 :=
  foldl_ifmin_init_ge _ 0

lemma get_pwm_min_le (m : Motif) (pos j : ℕ) (hpos : pos < m.size)
    (hj : j < 4) : get_pwm_min m ≤ m.pwm pos j :=
  foldl_ifmin_le_of_mem _ 0 _ (pwm_mem_entries m pos j hpos hj)

/-- Shifted-window sum: summing `tmp[x-s]·c` over the window
`s ≤ x ≤ s + M` inside a large enough range gives the plain windowed
sum times `c`. -/
lemma sum_window_shift (g : ℕ → ℚ) (c : ℚ) (s M N : ℕ) (hN : s + M < N) :
    ∑ x ∈ Finset.range N, (if s ≤ x ∧ x - s ≤ M then g (x - s) * c else 0) =
      (∑ k ∈ Finset.range (M + 1), g k) * c := by
  have himg : (Finset.range N).filter (fun x => s ≤ x ∧ x - s ≤ M) =
      (Finset.range (M + 1)).image (fun k => k + s) := by
    ext z
    simp only [Finset.mem_filter, Finset.mem_range, Finset.mem_image]
    constructor
    · rintro ⟨h1, h2, h3⟩
      exact ⟨z - s, by omega, by omega⟩
    · rintro ⟨k, hk, rfl⟩
      omega
  rw [← Finset.sum_filter, himg,
    Finset.sum_image (by intro u _ v _ h; omega)]
  rw [Finset.sum_mul]
  refine Finset.sum_congr rfl ?_
  intro k _
  rw [Nat.add_sub_cancel]

end Yamscan

namespace Yamscan

open Yam

lemma dp_upto_zero (m : Motif) (bkg : ℕ → ℚ) (x : ℕ) :
    dp_upto m bkg 0 x = 1 := rfl

lemma dp_upto_succ (m : Motif) (bkg : ℕ → ℚ) (n : ℕ) :
    dp_upto m bkg (n + 1) =
      fill_cdf_pos m bkg (dp_upto m bkg n) n := by
  unfold dp_upto
  rw [List.range_succ, List.foldl_append, List.foldl_cons, List.foldl_nil]

/-- The shifted per-letter score is bounded by `cdf_max` when `min` and
`max` really are the PWM extrema. -/
lemma shift_le_cdf_max (m : Motif) (hmin : m.min = get_pwm_min m)
    (hmax : m.max = get_pwm_max m) (hcm : m.cdf_max = m.max - m.min)
    (n j : ℕ) (hn : n < m.size) (hj : j < 4) :
    (get_score_i m j n - m.min).toNat ≤ m.cdf_max.toNat := by
  have h1 : m.min ≤ m.pwm n j := hmin ▸ get_pwm_min_le m n j hn hj
  have h2 : m.pwm n j ≤ m.max := hmax ▸ le_get_pwm_max m n j hn hj
  have : get_score_i m j n = m.pwm n j := rfl
  omega

/-- Invariant of the PDF construction: after `n` positions every entry
is nonnegative, entries above `n·cdf_max` still hold the initial 1.0,
and the mass in `[0, n·cdf_max]` is exactly 1. -/
lemma dp_upto_invariant (m : Motif) (bkg : ℕ → ℚ)
    (hbkg : ∀ j, j < 4 → 0 ≤ bkg j)
    (hbkg1 : ∑ j ∈ Finset.range 4, bkg j = 1)
    (hmin : m.min = get_pwm_min m) (hmax : m.max = get_pwm_max m)
    (hcm : m.cdf_max = m.max - m.min) :
    ∀ n, n ≤ m.size →
      (∀ x, 0 ≤ dp_upto m bkg n x) ∧
      (∀ x, n * m.cdf_max.toNat < x → dp_upto m bkg n x = 1) ∧
      (∑ x ∈ Finset.range (n * m.cdf_max.toNat + 1), dp_upto m bkg n x
        = 1) := by
  intro n
  induction n with
  | zero =>
    intro _
    refine ⟨fun x => by norm_num [dp_upto_zero], fun x _ => rfl, ?_⟩
    simp [dp_upto_zero]
  | succ n ih =>
    intro hn1
    obtain ⟨ha, hb, hc⟩ := ih (by omega)
    have hnlt : n < m.size := by omega
    have hsle : ∀ j, j < 4 →
        (get_score_i m j n - m.min).toNat ≤ m.cdf_max.toNat :=
      fun j hj => shift_le_cdf_max m hmin hmax hcm n j hnlt hj
    have hmul : (n + 1) * m.cdf_max.toNat =
        n * m.cdf_max.toNat + m.cdf_max.toNat := by ring
    rw [dp_upto_succ]
    refine ⟨?_, ?_, ?_⟩
    · intro x
      rw [fill_cdf_pos_apply]
      have h1 : (0:ℚ) ≤ zero_first (dp_upto m bkg n)
          (n * m.cdf_max.toNat + m.cdf_max.toNat + 1) x := by
        unfold zero_first
        split
        · exact le_refl 0
        · exact ha x
      refine add_nonneg h1 (Finset.sum_nonneg ?_)
      intro j hj
      split
      · exact mul_nonneg (ha _) (hbkg j (Finset.mem_range.mp hj))
      · exact le_refl 0
    · intro x hx
      rw [hmul] at hx
      rw [fill_cdf_pos_apply]
      have h1 : zero_first (dp_upto m bkg n)
          (n * m.cdf_max.toNat + m.cdf_max.toNat + 1) x = 1 := by
        unfold zero_first
        rw [if_neg (by omega)]
        exact hb x (by omega)
      have h2 : ∑ j ∈ Finset.range 4,
          (if (get_score_i m j n - m.min).toNat ≤ x ∧
              x - (get_score_i m j n - m.min).toNat ≤ n * m.cdf_max.toNat
           then dp_upto m bkg n (x - (get_score_i m j n - m.min).toNat) *
             bkg j else 0) = 0 := by
        refine Finset.sum_eq_zero ?_
        intro j hj
        have := hsle j (Finset.mem_range.mp hj)
        rw [if_neg (by omega)]
      rw [h1, h2, add_zero]
    · rw [hmul]
      have hsplit : ∀ x, fill_cdf_pos m bkg (dp_upto m bkg n) n x =
          zero_first (dp_upto m bkg n)
            (n * m.cdf_max.toNat + m.cdf_max.toNat + 1) x +
          ∑ j ∈ Finset.range 4,
            (if (get_score_i m j n - m.min).toNat ≤ x ∧
                x - (get_score_i m j n - m.min).toNat ≤ n * m.cdf_max.toNat
             then dp_upto m bkg n
               (x - (get_score_i m j n - m.min).toNat) * bkg j else 0) :=
        fun x => fill_cdf_pos_apply m bkg (dp_upto m bkg n) n x
      rw [Finset.sum_congr rfl (fun x _ => hsplit x), Finset.sum_add_distrib]
      have hz : ∑ x ∈ Finset.range (n * m.cdf_max.toNat + m.cdf_max.toNat + 1),
          zero_first (dp_upto m bkg n)
            (n * m.cdf_max.toNat + m.cdf_max.toNat + 1) x = 0 := by
        refine Finset.sum_eq_zero ?_
        intro x hx
        unfold zero_first
        rw [if_pos (Finset.mem_range.mp hx)]
      rw [hz, zero_add, Finset.sum_comm]
      have hj1 : ∀ j ∈ Finset.range 4,
          ∑ x ∈ Finset.range (n * m.cdf_max.toNat + m.cdf_max.toNat + 1),
            (if (get_score_i m j n - m.min).toNat ≤ x ∧
                x - (get_score_i m j n - m.min).toNat ≤ n * m.cdf_max.toNat
             then dp_upto m bkg n
               (x - (get_score_i m j n - m.min).toNat) * bkg j else 0) =
          bkg j := by
        intro j hj
        rw [sum_window_shift (dp_upto m bkg n) (bkg j) _ _ _
          (by have := hsle j (Finset.mem_range.mp hj); omega)]
        rw [hc, one_mul]
      rw [Finset.sum_congr rfl hj1]
      exact hbkg1

end Yamscan

namespace Yamscan

open Yam

/-- One downward step of the reverse cumulative sum
(`cdf[i] += cdf[i+1]`). -/
def suffix_step (i : ℕ) (acc : ℕ → ℚ) : ℕ → ℚ :=
  fun x => if x = i then acc x + acc (i + 1) else acc x

lemma fill_cdf_suffix_eq_foldr (m : Motif) (a : ℕ → ℚ) :
    fill_cdf_suffix m a =
      (List.range (m.cdf_size - 1)).foldr suffix_step a := by
  unfold fill_cdf_suffix
  rw [List.foldl_reverse]
  rfl

lemma suffix_foldr_untouched :
    ∀ (len : ℕ) (a : ℕ → ℚ) (x : ℕ), len ≤ x →
      (List.range len).foldr suffix_step a x = a x := by
  intro len
  induction len with
  | zero => intro a x _; rfl
  | succ len ih =>
    intro a x hx
    rw [List.range_succ, List.foldr_append, List.foldr_cons, List.foldr_nil]
    rw [ih (suffix_step len a) x (by omega)]
    unfold suffix_step
    rw [if_neg (by omega)]

/-- After the reverse cumulative pass, entry `x ≤ len` holds the suffix
sum `Σ_{j ∈ [x, len]} a j` of the original array. -/
lemma suffix_foldr_eq_sum :
    ∀ (len : ℕ) (a : ℕ → ℚ) (x : ℕ), x ≤ len →
      (List.range len).foldr suffix_step a x =
        ∑ j ∈ Finset.Ico x (len + 1), a j := by
  intro len
  induction len with
  | zero =>
    intro a x hx
    interval_cases x
    simp
  | succ len ih =>
    intro a x hx
    rw [List.range_succ, List.foldr_append, List.foldr_cons, List.foldr_nil]
    by_cases hxl : x ≤ len
    · rw [ih (suffix_step len a) x hxl]
      rw [Finset.sum_Ico_succ_top (by omega : x ≤ len)]
      have hcongr : ∀ j ∈ Finset.Ico x len, suffix_step len a j = a j := by
        intro j hj
        have := Finset.mem_Ico.mp hj
        unfold suffix_step
        rw [if_neg (by omega)]
      rw [Finset.sum_congr rfl hcongr]
      have htop : suffix_step len a len = a len + a (len + 1) := by
        unfold suffix_step
        rw [if_pos rfl]
      rw [htop, Finset.sum_Ico_succ_top (by omega : x ≤ len + 1),
        Finset.sum_Ico_succ_top (by omega : x ≤ len)]
      ring
    · have hxe : x = len + 1 := by omega
      subst hxe
      rw [suffix_foldr_untouched len (suffix_step len a) (len + 1) (by omega)]
      unfold suffix_step
      rw [if_neg (by omega)]
      rw [Finset.sum_Ico_succ_top (by omega : len + 1 ≤ len + 1)]
      simp

end Yamscan

namespace Yamscan

open Yam

/-- The normalisation pass is the identity whenever the PDF mass over
the CDF range is exactly 1 (as it is in exact arithmetic). -/
lemma fill_cdf_norm_of_sum_one (m : Motif) (a : ℕ → ℚ)
    (h : ∑ x ∈ Finset.range m.cdf_size, a x = 1) :
    fill_cdf_norm m a = a := by
  unfold fill_cdf_norm
  rw [h]
  norm_num

/-- Value of `fill_cdf` at an index inside the CDF range: the suffix
sum of the (normalised) PDF. -/
lemma fill_cdf_apply (m : Motif) (bkg : ℕ → ℚ) (x : ℕ)
    (hx : x ≤ m.cdf_size - 1)
    (hsum : ∑ y ∈ Finset.range m.cdf_size, fill_cdf_dp m bkg y = 1)
    (hpos : 1 ≤ m.cdf_size) :
    fill_cdf m bkg x =
      ∑ j ∈ Finset.Ico x m.cdf_size, fill_cdf_dp m bkg j := by
  unfold fill_cdf
  rw [fill_cdf_norm_of_sum_one m _ hsum, fill_cdf_suffix_eq_foldr,
    suffix_foldr_eq_sum (m.cdf_size - 1) _ x hx]
  have : m.cdf_size - 1 + 1 = m.cdf_size := by omega
  rw [this]

/-- Claim C3 (status: corrected).  Under exact arithmetic, for a motif
whose `min`/`max`/`cdf_max`/`cdf_size` fields are as `complete_motifs`
computes them and a nonnegative background summing to 1, the survival
array built by `fill_cdf` is non-increasing on its range and starts at
`cdf[0] = 1`; the final entry satisfies `0 ≤ cdf[cdf_size-1]`, but
(contrary to the claim) it need not be strictly positive. -/
theorem C3_cdf_invariants (m : Motif) (bkg : ℕ → ℚ)
    (hbkg : ∀ j, j < 4 → 0 ≤ bkg j)
    (hbkg1 : ∑ j ∈ Finset.range 4, bkg j = 1)
    (hmin : m.min = get_pwm_min m) (hmax : m.max = get_pwm_max m)
    (hcm : m.cdf_max = m.max - m.min)
    (hsz : m.cdf_size = ((m.size : ℤ) * m.cdf_max).toNat + 1) :
    (∀ k, k + 1 < m.cdf_size →
      fill_cdf m bkg (k + 1) ≤ fill_cdf m bkg k) ∧
    fill_cdf m bkg 0 = 1 ∧
    0 ≤ fill_cdf m bkg (m.cdf_size - 1) := by
  have hcmnn : 0 ≤ m.cdf_max := by
    have h1 := get_pwm_min_nonpos m
    have h2 := get_pwm_max_nonneg m
    omega
  have hszK : m.cdf_size = m.size * m.cdf_max.toNat + 1 := by
    rw [hsz, ← Int.toNat_of_nonneg hcmnn, ← Int.natCast_mul, Int.toNat_natCast,
      Int.toNat_natCast]
  obtain ⟨ha, hb, hc⟩ := dp_upto_invariant m bkg hbkg hbkg1 hmin hmax hcm
    m.size (le_refl _)
  have hsum : ∑ y ∈ Finset.range m.cdf_size, fill_cdf_dp m bkg y = 1 := by
    rw [hszK]
    exact hc
  have hpos : 1 ≤ m.cdf_size := by omega
  refine ⟨?_, ?_, ?_⟩
  · intro k hk
    rw [fill_cdf_apply m bkg (k + 1) (by omega) hsum hpos,
      fill_cdf_apply m bkg k (by omega) hsum hpos]
    rw [Finset.sum_eq_sum_Ico_succ_bot (by omega : k < m.cdf_size)]
    have h0 := ha k
    unfold fill_cdf_dp at h0 ⊢
    linarith
  · rw [fill_cdf_apply m bkg 0 (by omega) hsum hpos]
    rw [← Finset.range_eq_Ico]
    exact hsum
  · rw [fill_cdf_apply m bkg (m.cdf_size - 1) (le_refl _) hsum hpos]
    refine Finset.sum_nonneg ?_
    intro j _
    exact ha j

/-- Witness motif for C3: one position with scores (1000, 0, 0, 0). -/
def c3w_motif : Motif :=
  { init_motif with
    size := 1
    pwm := fun p j =>
      if j = 4 then ambiguity_score
      else if p = 0 ∧ j = 0 then 1000 else 0
    min := 0
    max := 1000
    cdf_max := 1000
    cdf_size := 1001 }

/-- Witness for C3 at a concrete one-position motif with uniform
background. -/
theorem C3_cdf_invariants_witness :
    ((∀ j, j < 4 → (0:ℚ) ≤ 1/4) ∧
      ∑ j ∈ Finset.range 4, (1/4 : ℚ) = 1 ∧
      c3w_motif.min = get_pwm_min c3w_motif ∧
      c3w_motif.max = get_pwm_max c3w_motif) ∧
    (∀ k, k + 1 < c3w_motif.cdf_size →
      fill_cdf c3w_motif (fun _ => 1/4) (k + 1) ≤
        fill_cdf c3w_motif (fun _ => 1/4) k) ∧
    fill_cdf c3w_motif (fun _ => 1/4) 0 = 1 ∧
    0 ≤ fill_cdf c3w_motif (fun _ => 1/4) (c3w_motif.cdf_size - 1) :=
  ⟨⟨fun _ _ => by norm_num, by norm_num [Finset.sum_range_succ],
      by decide, by decide⟩,
    C3_cdf_invariants c3w_motif (fun _ => 1/4) (fun _ _ => by norm_num)
      (by norm_num [Finset.sum_range_succ]) (by decide) (by decide)
      (by decide) (by decide)⟩

end Yamscan

namespace Yamscan

open Yam

/-- Counterexample motif for C3: two positions with scores
(10, 0, 0, 0) and (5, 0, 0, 0).  The global extrema are `min = 0` and
`max = 10`, so `cdf_size = 2·10 + 1 = 21`, but the best achievable
total score is 15, so the top CDF entry carries no probability mass. -/
def c3_motif : Motif :=
  { init_motif with
    size := 2
    pwm := fun p j =>
      if j = 4 then ambiguity_score
      else if p = 0 ∧ j = 0 then 10 else if p = 1 ∧ j = 0 then 5 else 0
    min := 0
    max := 10
    cdf_max := 10
    cdf_size := 21 }

/-- Claim C3, counterexample.  For the motif above (with uniform
background), `fill_cdf` leaves `cdf[cdf_size - 1] = 0`: the claim
`cdf[cdf_size − 1] > 0` is false whenever some position's own maximum
score is below the global per-position maximum. -/
theorem C3_counterexample :
    fill_cdf c3_motif (fun _ => 1/4) (c3_motif.cdf_size - 1) = 0 ∧
    ¬ 0 < fill_cdf c3_motif (fun _ => 1/4) (c3_motif.cdf_size - 1) := by
  have hsum : ∑ y ∈ Finset.range c3_motif.cdf_size,
      fill_cdf_dp c3_motif (fun _ => 1/4) y = 1 := by
    have h := (dp_upto_invariant c3_motif (fun _ => 1/4)
      (fun _ _ => by norm_num) (by norm_num [Finset.sum_range_succ])
      (by decide) (by decide) (by decide) 2 (by decide)).2.2
    exact h
  have happ := fill_cdf_apply c3_motif (fun _ => 1/4) 20 (by decide) hsum
    (by decide)
  have hico : Finset.Ico 20 c3_motif.cdf_size = {20} := rfl
  rw [hico, Finset.sum_singleton] at happ
  have hdp : fill_cdf_dp c3_motif (fun _ => 1/4) 20 = 0 := by
    show dp_upto c3_motif (fun _ => 1/4) 2 20 = 0
    rw [dp_upto_succ, fill_cdf_pos_apply]
    have hz : zero_first (dp_upto c3_motif (fun _ => 1/4) 1)
        (1 * c3_motif.cdf_max.toNat + c3_motif.cdf_max.toNat + 1) 20 = 0 := by
      unfold zero_first
      rw [if_pos (by decide)]
    rw [hz, zero_add]
    refine Finset.sum_eq_zero ?_
    intro j hj
    have hj4 : j < 4 := Finset.mem_range.mp hj
    interval_cases j <;>
      · rw [if_neg (by decide)]
  have hsz20 : c3_motif.cdf_size - 1 = 20 := rfl
  rw [hsz20]
  refine ⟨?_, ?_⟩
  · rw [happ, hdp]
  · rw [happ, hdp]
    norm_num

end Yamscan

namespace Yamscan

open Yam

/-- `consensus2index` from yamscan.c: IUPAC consensus letter to row
index of the probability table; `-1` for unknown letters. -/
def consensus2index (c : Char) : ℤ :=
  match c with
  | 'A' | 'a' => 0
  | 'B' | 'b' => 13
  | 'C' | 'c' => 1
  | 'D' | 'd' => 10
  | 'G' | 'g' => 2
  | 'H' | 'h' => 12
  | 'K' | 'k' => 8
  | 'M' | 'm' => 9
  | 'N' | 'n' => 14
  | 'R' | 'r' => 5
  | 'S' | 's' => 7
  | 'T' | 't' | 'U' | 'u' => 3
  | 'V' | 'v' => 11
  | 'W' | 'w' => 6
  | 'Y' | 'y' => 4
  | _ => -1

/-- The flat `consensus2probs` table from yamscan.c, indexed as
`let_i * 4 + letter` (the decimal literals 0.5, 0.333 and 0.25 are
modelled exactly). -/
def consensus2probs (i : ℕ) : ℚ :=
  [1, 0, 0, 0,
   0, 1, 0, 0,
   0, 0, 1, 0,
   0, 0, 0, 1,
   0, 1/2, 0, 1/2,
   1/2, 0, 1/2, 0,
   1/2, 0, 0, 1/2,
   0, 1/2, 1/2, 0,
   0, 0, 1/2, 1/2,
   1/2, 1/2, 0, 0,
   333/1000, 0, 333/1000, 333/1000,
   333/1000, 333/1000, 333/1000, 0,
   333/1000, 333/1000, 0, 333/1000,
   0, 333/1000, 333/1000, 333/1000,
   1/4, 1/4, 1/4, 1/4].getD i 0

/-- Exact-real semantics of the C expression
`(int)(log2(x) * 1000.0)` for a positive rational `x` (truncation
toward zero, as the C cast): realised computably through `Int.log`,
using `⌊1000·log₂ x⌋ = ⌊log₂ (x^1000)⌋`. -/
def log2_fixed (x : ℚ) : ℤ :=
  if 1 ≤ x then Int.log 2 (x ^ (1000 : ℕ)) else - Int.log 2 (x⁻¹ ^ (1000 : ℕ))

/-- `calc_score` from yamscan.c:
`x = prob·nsites; x += pseudocount/4; x /= nsites + pseudocount;
return (int)(log2(x / bkg) * 1000)`. -/
def calc_score (nsites pseudocount : ℕ) (prob_i bkg_i : ℚ) : ℤ :=
  log2_fixed (((prob_i * nsites + (pseudocount : ℚ) / 4) /
    ((nsites : ℚ) + pseudocount)) / bkg_i)

/-- The loop body of `add_consensus_motif` for position `pos`: write the
four `calc_score` values of the consensus letter's probability row. -/
def add_consensus_step (consensus : List Char) (bkg : ℕ → ℚ)
    (nsites pseudo : ℕ) (acc : Motif) (pos : ℕ) : Motif :=
  let let_i := (consensus2index (consensus.getD pos 'N')).toNat
  let a1 := set_score acc 'A' pos
    (calc_score nsites pseudo (consensus2probs (let_i * 4 + 0)) (bkg 0))
  let a2 := set_score a1 'C' pos
    (calc_score nsites pseudo (consensus2probs (let_i * 4 + 1)) (bkg 1))
  let a3 := set_score a2 'G' pos
    (calc_score nsites pseudo (consensus2probs (let_i * 4 + 2)) (bkg 2))
  set_score a3 'T' pos
    (calc_score nsites pseudo (consensus2probs (let_i * 4 + 3)) (bkg 3))

/-- The PWM part of `add_consensus_motif` from yamscan.c: a fresh motif
of the consensus length whose rows are filled per position (unknown
letters are fatal in the C program and do not occur here). -/
def add_consensus_pwm (consensus : List Char) (bkg : ℕ → ℚ)
    (nsites pseudo : ℕ) : Motif :=
  (List.range consensus.length).foldl
    (add_consensus_step consensus bkg nsites pseudo)
    { init_motif with size := consensus.length }

/-- `add_consensus_motif` from yamscan.c: build the PWM, then
`complete_motifs`. -/
def add_consensus_motif (consensus : List Char) (bkg : ℕ → ℚ)
    (nsites pseudo : ℕ) : Motif :=
  complete_motif (add_consensus_pwm consensus bkg nsites pseudo)

lemma calc_score_match : calc_score 1000 1 1 (1/4) = 1998 := by
  have harg : (((1:ℚ) * (1000:ℕ) + ((1:ℕ):ℚ) / 4) /
      (((1000:ℕ):ℚ) + ((1:ℕ):ℚ))) / (1/4) = 4001/1001 := by
    push_cast
    norm_num
  unfold calc_score
  rw [harg]
  rw [log2_fixed, if_pos (by norm_num)]
  have hq : (0:ℚ) < ((4001:ℚ)/1001) ^ (1000 : ℕ) := by positivity
  have h1 : (1998 : ℤ) ≤ Int.log 2 (((4001:ℚ)/1001) ^ (1000 : ℕ)) := by
    rw [← Int.zpow_le_iff_le_log (by norm_num) hq]
    rw [show (1998:ℤ) = ((1998:ℕ):ℤ) from rfl, zpow_natCast]
    rw [div_pow, le_div_iff₀ (by positivity)]
    norm_num
  have h2 : Int.log 2 (((4001:ℚ)/1001) ^ (1000 : ℕ)) < 1999 := by
    rw [← Int.lt_zpow_iff_log_lt (by norm_num) hq]
    rw [show (1999:ℤ) = ((1999:ℕ):ℤ) from rfl, zpow_natCast]
    rw [div_pow, div_lt_iff₀ (by positivity)]
    norm_num
  omega

lemma calc_score_mismatch : calc_score 1000 1 0 (1/4) = -9967 := by
  have harg : (((0:ℚ) * (1000:ℕ) + ((1:ℕ):ℚ) / 4) /
      (((1000:ℕ):ℚ) + ((1:ℕ):ℚ))) / (1/4) = 1/1001 := by
    push_cast
    norm_num
  unfold calc_score
  rw [harg]
  rw [log2_fixed, if_neg (by norm_num)]
  have he : ((1:ℚ)/1001)⁻¹ ^ (1000 : ℕ) = (1001:ℚ) ^ (1000:ℕ) := by norm_num
  rw [he]
  have hq : (0:ℚ) < (1001:ℚ) ^ (1000 : ℕ) := by positivity
  have h1 : (9967 : ℤ) ≤ Int.log 2 ((1001:ℚ) ^ (1000 : ℕ)) := by
    rw [← Int.zpow_le_iff_le_log (by norm_num) hq]
    rw [show (9967:ℤ) = ((9967:ℕ):ℤ) from rfl, zpow_natCast]
    norm_num
  have h2 : Int.log 2 ((1001:ℚ) ^ (1000 : ℕ)) < 9968 := by
    rw [← Int.lt_zpow_iff_log_lt (by norm_num) hq]
    rw [show (9968:ℤ) = ((9968:ℕ):ℤ) from rfl, zpow_natCast]
    norm_num
  omega

end Yamscan

namespace Yamscan

open Yam

/-- The concrete inputs of scenario E1: consensus `ACGT`, uniform
background, and the defaults `nsites = 1000`, `pseudocount = 1`,
`pvalue = 1` that `main` installs for consensus mode. -/
def c9_consensus : List Char := ['A', 'C', 'G', 'T']

def c9_bkg : ℕ → ℚ := fun _ => 1/4

def c9_base : Motif := add_consensus_pwm c9_consensus c9_bkg 1000 1

def c9_motif : Motif := add_consensus_motif c9_consensus c9_bkg 1000 1

lemma c9_base_pwm (q b : ℕ) (hq : q < 4) (hb : b < 4) :
    c9_base.pwm q b = if b = q then 1998 else -9967 := by
  have hrange : List.range c9_consensus.length = [0, 1, 2, 3] := rfl
  unfold c9_base add_consensus_pwm
  rw [hrange]
  simp only [List.foldl_cons, List.foldl_nil, add_consensus_step, set_score,
    c9_consensus, c9_bkg]
  have h1 : calc_score 1000 1 1 (4⁻¹) = 1998 := by
    rw [show (4⁻¹ : ℚ) = 1/4 from by norm_num]
    exact calc_score_match
  have h2 : calc_score 1000 1 0 (4⁻¹) = -9967 := by
    rw [show (4⁻¹ : ℚ) = 1/4 from by norm_num]
    exact calc_score_mismatch
  interval_cases q <;> interval_cases b <;>
    simp_all [consensus2index, consensus2probs, char2index]

lemma c9_base_pwm4 (q : ℕ) : c9_base.pwm q 4 = ambiguity_score := by
  have hrange : List.range c9_consensus.length = [0, 1, 2, 3] := rfl
  unfold c9_base add_consensus_pwm
  rw [hrange]
  simp only [List.foldl_cons, List.foldl_nil, add_consensus_step, set_score,
    c9_consensus, c9_bkg]
  simp [char2index, init_motif]

lemma c9_base_size : c9_base.size = 4 := by
  have hrange : List.range c9_consensus.length = [0, 1, 2, 3] := rfl
  unfold c9_base add_consensus_pwm
  rw [hrange]
  simp only [List.foldl_cons, List.foldl_nil, add_consensus_step, set_score]
  rfl

end Yamscan

namespace Yamscan

open Yam

lemma list_map_congr_on {α β : Type} (l : List α) (f g : α → β)
    (h : ∀ x ∈ l, f x = g x) : l.map f = l.map g := by
  induction l with
  | nil => rfl
  | cons y rest ih =>
    rw [List.map_cons, List.map_cons, h y (List.mem_cons_self _ _),
      ih (fun x hx => h x (List.mem_cons_of_mem _ hx))]

lemma list_flatMap_congr_on {α β : Type} (l : List α) (f g : α → List β)
    (h : ∀ x ∈ l, f x = g x) : l.flatMap f = l.flatMap g := by
  induction l with
  | nil => rfl
  | cons y rest ih =>
    rw [List.flatMap_cons, List.flatMap_cons, h y (List.mem_cons_self _ _),
      ih (fun x hx => h x (List.mem_cons_of_mem _ hx))]

/-- `get_pwm_min` only looks at the PWM entries in range. -/
lemma get_pwm_min_congr (m1 m2 : Motif) (hsize : m1.size = m2.size)
    (hpwm : ∀ p j, p < m1.size → j < 4 → m1.pwm p j = m2.pwm p j) :
    get_pwm_min m1 = get_pwm_min m2 := by
  unfold get_pwm_min
  rw [hsize, list_flatMap_congr_on _ _ _ ?heq]
  case heq =>
    intro p hp
    refine list_map_congr_on _ _ _ ?_
    intro j hj
    exact hpwm p j (by rw [hsize]; exact List.mem_range.mp hp)
      (List.mem_range.mp hj)

/-- `get_pwm_max` only looks at the PWM entries in range. -/
lemma get_pwm_max_congr (m1 m2 : Motif) (hsize : m1.size = m2.size)
    (hpwm : ∀ p j, p < m1.size → j < 4 → m1.pwm p j = m2.pwm p j) :
    get_pwm_max m1 = get_pwm_max m2 := by
  unfold get_pwm_max
  rw [hsize, list_flatMap_congr_on _ _ _ ?heq]
  case heq =>
    intro p hp
    refine list_map_congr_on _ _ _ ?_
    intro j hj
    exact hpwm p j (by rw [hsize]; exact List.mem_range.mp hp)
      (List.mem_range.mp hj)

/-- The `fill_pwm_rc` loop leaves every field other than `pwm_rc`
unchanged. -/
lemma fill_pwm_rc_fold_fields (m : Motif) (l : List ℕ) (acc : Motif) :
    (l.foldl (fill_pwm_rc_step m) acc).min = acc.min ∧
    (l.foldl (fill_pwm_rc_step m) acc).max = acc.max ∧
    (l.foldl (fill_pwm_rc_step m) acc).threshold = acc.threshold ∧
    (l.foldl (fill_pwm_rc_step m) acc).max_score = acc.max_score ∧
    (l.foldl (fill_pwm_rc_step m) acc).min_score = acc.min_score ∧
    (l.foldl (fill_pwm_rc_step m) acc).cdf_offset = acc.cdf_offset ∧
    (l.foldl (fill_pwm_rc_step m) acc).cdf_max = acc.cdf_max ∧
    (l.foldl (fill_pwm_rc_step m) acc).cdf_size = acc.cdf_size := by
  induction l generalizing acc with
  | nil => exact ⟨rfl, rfl, rfl, rfl, rfl, rfl, rfl, rfl⟩
  | cons p rest ih =>
    rw [List.foldl_cons]
    exact ih (fill_pwm_rc_step m acc p)

lemma fill_pwm_rc_min (m : Motif) : (fill_pwm_rc m).min = m.min :=
  (fill_pwm_rc_fold_fields m _ m).1

lemma fill_pwm_rc_max (m : Motif) : (fill_pwm_rc m).max = m.max :=
  (fill_pwm_rc_fold_fields m _ m).2.1

lemma fill_pwm_rc_threshold (m : Motif) :
    (fill_pwm_rc m).threshold = m.threshold :=
  (fill_pwm_rc_fold_fields m _ m).2.2.1

lemma fill_pwm_rc_max_score (m : Motif) :
    (fill_pwm_rc m).max_score = m.max_score :=
  (fill_pwm_rc_fold_fields m _ m).2.2.2.1

lemma fill_pwm_rc_min_score (m : Motif) :
    (fill_pwm_rc m).min_score = m.min_score :=
  (fill_pwm_rc_fold_fields m _ m).2.2.2.2.1

lemma fill_pwm_rc_cdf_offset (m : Motif) :
    (fill_pwm_rc m).cdf_offset = m.cdf_offset :=
  (fill_pwm_rc_fold_fields m _ m).2.2.2.2.2.1

/-- The scoring-relevant fields after `complete_motifs`. -/
lemma complete_motif_fields (m : Motif) :
    (complete_motif m).pwm = m.pwm ∧
    (complete_motif m).size = m.size ∧
    (complete_motif m).min = get_pwm_min m ∧
    (complete_motif m).max = get_pwm_max m ∧
    (complete_motif m).threshold = m.threshold ∧
    (complete_motif m).max_score = m.max_score ∧
    (complete_motif m).min_score = m.min_score ∧
    (complete_motif m).cdf_offset = get_pwm_min m * m.size ∧
    (complete_motif m).cdf_max = get_pwm_max m - get_pwm_min m ∧
    (complete_motif m).cdf_size =
      ((m.size : ℤ) * (get_pwm_max m - get_pwm_min m)).toNat + 1 := by
  unfold complete_motif
  refine ⟨?_, ?_, ?_, ?_, ?_, ?_, ?_, ?_, ?_, ?_⟩
  · exact fill_pwm_rc_pwm _
  · exact fill_pwm_rc_size _
  · exact fill_pwm_rc_min _
  · exact fill_pwm_rc_max _
  · exact fill_pwm_rc_threshold _
  · exact fill_pwm_rc_max_score _
  · exact fill_pwm_rc_min_score _
  · exact fill_pwm_rc_cdf_offset _
  · show (fill_pwm_rc _).max - (fill_pwm_rc _).min = _
    rw [fill_pwm_rc_max, fill_pwm_rc_min]
  · show ((fill_pwm_rc _).size * ((fill_pwm_rc _).max -
      (fill_pwm_rc _).min)).toNat + 1 = _
    rw [fill_pwm_rc_max, fill_pwm_rc_min, fill_pwm_rc_size]

/-- The reverse-complement PWM after `complete_motifs`. -/
lemma complete_motif_pwm_rc (m : Motif) (q b : ℕ) (hq : q < m.size)
    (hb : b < 4) :
    (complete_motif m).pwm_rc q b = m.pwm (m.size - 1 - q) (3 - b) := by
  unfold complete_motif
  show (fill_pwm_rc { m with
    min := get_pwm_min m, max := get_pwm_max m,
    cdf_offset := get_pwm_min m * m.size }).pwm_rc q b = _
  rw [fill_pwm_rc_spec]
  · exact hq
  · exact hb

/-- The untouched fifth column of the reverse-complement PWM after
`complete_motifs`. -/
lemma complete_motif_pwm_rc4 (m : Motif) (q : ℕ) :
    (complete_motif m).pwm_rc q 4 = m.pwm_rc q 4 := by
  unfold complete_motif
  show (fill_pwm_rc { m with
    min := get_pwm_min m, max := get_pwm_max m,
    cdf_offset := get_pwm_min m * m.size }).pwm_rc q 4 = _
  rw [fill_pwm_rc_rc4]

end Yamscan

namespace Yamscan

open Yam

/-- Comparison motif holding the literal PWM values of the consensus
`ACGT` (match 1998, mismatch -9967), used to evaluate the extrema of
`c9_base` through the congruence lemmas. -/
def c9_cmp : Motif :=
  { init_motif with
    size := 4
    pwm := fun q b => if b = q then 1998 else -9967 }

lemma c9_base_fields :
    c9_base.threshold = 0 ∧ c9_base.max_score = 0 ∧
      c9_base.min_score = 0 := by
  unfold c9_base add_consensus_pwm
  rw [show List.range c9_consensus.length = [0, 1, 2, 3] from rfl]
  simp only [List.foldl_cons, List.foldl_nil, add_consensus_step, set_score]
  exact ⟨rfl, rfl, rfl⟩

lemma c9_gmin : get_pwm_min c9_base = -9967 := by
  have h := get_pwm_min_congr c9_base c9_cmp (by rw [c9_base_size]; rfl)
    (fun p j hp hj => by
      rw [c9_base_pwm p j (by rw [c9_base_size] at hp; exact hp) hj]
      rfl)
  rw [h]
  decide

lemma c9_gmax : get_pwm_max c9_base = 1998 := by
  have h := get_pwm_max_congr c9_base c9_cmp (by rw [c9_base_size]; rfl)
    (fun p j hp hj => by
      rw [c9_base_pwm p j (by rw [c9_base_size] at hp; exact hp) hj]
      rfl)
  rw [h]
  decide

lemma c9_size4 : c9_motif.size = 4 := by
  show (complete_motif c9_base).size = 4
  rw [(complete_motif_fields c9_base).2.1, c9_base_size]

lemma c9_min_val : c9_motif.min = -9967 := by
  show (complete_motif c9_base).min = -9967
  rw [(complete_motif_fields c9_base).2.2.1, c9_gmin]

lemma c9_max_val : c9_motif.max = 1998 := by
  show (complete_motif c9_base).max = 1998
  rw [(complete_motif_fields c9_base).2.2.2.1, c9_gmax]

lemma c9_thr0 : c9_motif.threshold = 0 := by
  show (complete_motif c9_base).threshold = 0
  rw [(complete_motif_fields c9_base).2.2.2.2.1, c9_base_fields.1]

lemma c9_maxs0 : c9_motif.max_score = 0 := by
  show (complete_motif c9_base).max_score = 0
  rw [(complete_motif_fields c9_base).2.2.2.2.2.1, c9_base_fields.2.1]

lemma c9_mins0 : c9_motif.min_score = 0 := by
  show (complete_motif c9_base).min_score = 0
  rw [(complete_motif_fields c9_base).2.2.2.2.2.2.1, c9_base_fields.2.2]

lemma c9_off_val : c9_motif.cdf_offset = -39868 := by
  show (complete_motif c9_base).cdf_offset = -39868
  rw [(complete_motif_fields c9_base).2.2.2.2.2.2.2.1, c9_gmin, c9_base_size]
  norm_num

lemma c9_cmax_val : c9_motif.cdf_max = 11965 := by
  show (complete_motif c9_base).cdf_max = 11965
  rw [(complete_motif_fields c9_base).2.2.2.2.2.2.2.2.1, c9_gmax, c9_gmin]
  norm_num

lemma c9_csize_val : c9_motif.cdf_size = 47861 := by
  show (complete_motif c9_base).cdf_size = 47861
  rw [(complete_motif_fields c9_base).2.2.2.2.2.2.2.2.2, c9_gmax, c9_gmin,
    c9_base_size]
  norm_num
  decide

lemma c9_pwm_val (q b : ℕ) (hq : q < 4) (hb : b < 4) :
    c9_motif.pwm q b = if b = q then 1998 else -9967 := by
  show (complete_motif c9_base).pwm q b = _
  rw [(complete_motif_fields c9_base).1]
  exact c9_base_pwm q b hq hb

lemma c9_pwm_rc_val (q b : ℕ) (hq : q < 4) (hb : b < 4) :
    c9_motif.pwm_rc q b = if b = q then 1998 else -9967 := by
  show (complete_motif c9_base).pwm_rc q b = _
  rw [complete_motif_pwm_rc c9_base q b (by rw [c9_base_size]; exact hq) hb]
  rw [c9_base_size]
  rw [c9_base_pwm (4 - 1 - q) (3 - b) (by omega) (by omega)]
  by_cases hbq : b = q
  · rw [if_pos (by omega), if_pos hbq]
  · rw [if_neg (by omega), if_neg hbq]

lemma c9_gsi (j i : ℕ) (hj : j < 4) (hi : i < 4) :
    get_score_i c9_motif j i = if j = i then 1998 else -9967 := by
  show c9_motif.pwm i j = _
  rw [c9_pwm_val i j hi hj]

lemma c9_shift (j i : ℕ) (hj : j < 4) (hi : i < 4) :
    (get_score_i c9_motif j i - c9_motif.min).toNat =
      if j = i then 11965 else 0 := by
  rw [c9_gsi j i hj hi, c9_min_val]
  by_cases h : j = i
  · rw [if_pos h, if_pos h]
    decide
  · rw [if_neg h, if_neg h]
    decide

lemma c9_gmin_motif : get_pwm_min c9_motif = -9967 := by
  have h := get_pwm_min_congr c9_motif c9_base
    (by rw [c9_size4, c9_base_size])
    (fun p j hp hj => by
      show (complete_motif c9_base).pwm p j = _
      rw [(complete_motif_fields c9_base).1])
  rw [h, c9_gmin]

lemma c9_gmax_motif : get_pwm_max c9_motif = 1998 := by
  have h := get_pwm_max_congr c9_motif c9_base
    (by rw [c9_size4, c9_base_size])
    (fun p j hp hj => by
      show (complete_motif c9_base).pwm p j = _
      rw [(complete_motif_fields c9_base).1])
  rw [h, c9_gmax]

end Yamscan

namespace Yamscan

open Yam

lemma c9_cmax_toNat : c9_motif.cdf_max.toNat = 11965 := by
  rw [c9_cmax_val]
  rfl

lemma c9_dp1 : dp_upto c9_motif c9_bkg 1 11965 = 1/4 := by
  show dp_upto c9_motif c9_bkg (0 + 1) 11965 = 1/4
  rw [dp_upto_succ, fill_cdf_pos_apply]
  simp only [c9_cmax_toNat]
  rw [Finset.sum_range_succ, Finset.sum_range_succ, Finset.sum_range_succ,
    Finset.sum_range_one]
  rw [c9_shift 0 0 (by norm_num) (by norm_num),
    c9_shift 1 0 (by norm_num) (by norm_num),
    c9_shift 2 0 (by norm_num) (by norm_num),
    c9_shift 3 0 (by norm_num) (by norm_num)]
  norm_num [zero_first, c9_bkg, dp_upto_zero]

lemma c9_dp2 : dp_upto c9_motif c9_bkg 2 23930 = 1/16 := by
  show dp_upto c9_motif c9_bkg (1 + 1) 23930 = 1/16
  rw [dp_upto_succ, fill_cdf_pos_apply]
  simp only [c9_cmax_toNat]
  rw [Finset.sum_range_succ, Finset.sum_range_succ, Finset.sum_range_succ,
    Finset.sum_range_one]
  rw [c9_shift 0 1 (by norm_num) (by norm_num),
    c9_shift 1 1 (by norm_num) (by norm_num),
    c9_shift 2 1 (by norm_num) (by norm_num),
    c9_shift 3 1 (by norm_num) (by norm_num)]
  norm_num [zero_first, c9_bkg, c9_dp1]

lemma c9_dp3 : dp_upto c9_motif c9_bkg 3 35895 = 1/64 := by
  show dp_upto c9_motif c9_bkg (2 + 1) 35895 = 1/64
  rw [dp_upto_succ, fill_cdf_pos_apply]
  simp only [c9_cmax_toNat]
  rw [Finset.sum_range_succ, Finset.sum_range_succ, Finset.sum_range_succ,
    Finset.sum_range_one]
  rw [c9_shift 0 2 (by norm_num) (by norm_num),
    c9_shift 1 2 (by norm_num) (by norm_num),
    c9_shift 2 2 (by norm_num) (by norm_num),
    c9_shift 3 2 (by norm_num) (by norm_num)]
  norm_num [zero_first, c9_bkg, c9_dp2]

lemma c9_dp4 : dp_upto c9_motif c9_bkg 4 47860 = 1/256 := by
  show dp_upto c9_motif c9_bkg (3 + 1) 47860 = 1/256
  rw [dp_upto_succ, fill_cdf_pos_apply]
  simp only [c9_cmax_toNat]
  rw [Finset.sum_range_succ, Finset.sum_range_succ, Finset.sum_range_succ,
    Finset.sum_range_one]
  rw [c9_shift 0 3 (by norm_num) (by norm_num),
    c9_shift 1 3 (by norm_num) (by norm_num),
    c9_shift 2 3 (by norm_num) (by norm_num),
    c9_shift 3 3 (by norm_num) (by norm_num)]
  norm_num [zero_first, c9_bkg, c9_dp3]

lemma c9_dpfull : fill_cdf_dp c9_motif c9_bkg = dp_upto c9_motif c9_bkg 4 := by
  unfold fill_cdf_dp
  rw [c9_size4]

lemma c9_sum1 :
    ∑ y ∈ Finset.range c9_motif.cdf_size, fill_cdf_dp c9_motif c9_bkg y
      = 1 := by
  have h := (dp_upto_invariant c9_motif c9_bkg
    (fun j hj => by norm_num [c9_bkg])
    (by norm_num [c9_bkg, Finset.sum_range_succ])
    (by rw [c9_min_val, c9_gmin_motif])
    (by rw [c9_max_val, c9_gmax_motif])
    (by rw [c9_cmax_val, c9_max_val, c9_min_val]; norm_num)
    4 c9_size4.ge).2.2
  rw [c9_cmax_toNat] at h
  rw [c9_csize_val, show (47861:ℕ) = 4 * 11965 + 1 from rfl]
  simp only [c9_dpfull]
  exact h

lemma c9_cdf_top : fill_cdf c9_motif c9_bkg 47860 = 1/256 := by
  rw [fill_cdf_apply c9_motif c9_bkg 47860
    (by rw [c9_csize_val]) c9_sum1 (by rw [c9_csize_val]; norm_num)]
  rw [c9_csize_val, show (47861:ℕ) = 47860 + 1 from rfl,
    Finset.sum_Ico_succ_top (le_refl 47860), Finset.Ico_self,
    Finset.sum_empty, zero_add, c9_dpfull]
  exact c9_dp4

end Yamscan

namespace Yamscan

open Yam

/-- The CDF the program computes for the consensus motif. -/
def c9_cdf : ℕ → ℚ := fill_cdf c9_motif c9_bkg

/-- The consensus motif after `set_threshold` with the consensus-mode
parameters `pvalue = 1`, `thresh0 = false`, `is_consensus = true`. -/
def c9_scored : Motif := set_threshold c9_motif c9_cdf 1 false true

/-- The single input sequence of the scenario. -/
def c9_seq : List Char := ['A', 'A', 'A', 'C', 'G', 'T', 'A', 'A']

lemma c9_scored_pwm_eq : c9_scored.pwm = c9_motif.pwm := by
  simp only [c9_scored, set_threshold]

lemma c9_scored_rc_eq : c9_scored.pwm_rc = c9_motif.pwm_rc := by
  simp only [c9_scored, set_threshold]

lemma c9_scored_size : c9_scored.size = 4 := by
  simp only [c9_scored, set_threshold]
  exact c9_size4

lemma c9_scored_off : c9_scored.cdf_offset = -39868 := by
  simp only [c9_scored, set_threshold]
  exact c9_off_val

lemma c9_pos_max_val (i : ℕ) (hi : i < 4) : pos_max c9_motif i = 1998 := by
  unfold pos_max
  rw [show List.range 3 = [0, 1, 2] from rfl]
  simp only [List.map_cons, List.map_nil, List.foldl_cons, List.foldl_nil]
  rw [c9_gsi 0 i (by norm_num) hi, c9_gsi (0 + 1) i (by norm_num) hi,
    c9_gsi (1 + 1) i (by norm_num) hi, c9_gsi (2 + 1) i (by norm_num) hi]
  interval_cases i <;> decide

lemma c9_pos_min_val (i : ℕ) (hi : i < 4) : pos_min c9_motif i = -9967 := by
  unfold pos_min
  rw [show List.range 3 = [0, 1, 2] from rfl]
  simp only [List.map_cons, List.map_nil, List.foldl_cons, List.foldl_nil]
  rw [c9_gsi 0 i (by norm_num) hi, c9_gsi (0 + 1) i (by norm_num) hi,
    c9_gsi (1 + 1) i (by norm_num) hi, c9_gsi (2 + 1) i (by norm_num) hi]
  interval_cases i <;> decide

lemma c9_scored_thr3 :
    c9_scored.threshold = 7992 ∧ c9_scored.max_score = 7992 ∧
      c9_scored.min_score = -39868 := by
  simp only [c9_scored, set_threshold]
  rw [c9_size4, c9_maxs0, c9_mins0]
  norm_num [Finset.sum_range_succ, c9_pos_max_val, c9_pos_min_val]

lemma c9_thr_val : c9_scored.threshold = 7992 := c9_scored_thr3.1

lemma c9_maxs_val : c9_scored.max_score = 7992 := c9_scored_thr3.2.1

lemma c9_mins_val : c9_scored.min_score = -39868 := c9_scored_thr3.2.2

end Yamscan

namespace Yamscan

open Yam

lemma c9_get (c : Char) (i : ℕ) (hi : i < 4) (hc : char2index c < 4) :
    get_score c9_scored c i char2index =
      if char2index c = i then 1998 else -9967 := by
  show c9_scored.pwm i (char2index c) = _
  rw [c9_scored_pwm_eq]
  exact c9_pwm_val i (char2index c) hi hc

lemma c9_get_rc (c : Char) (i : ℕ) (hi : i < 4) (hc : char2index c < 4) :
    get_score_rc c9_scored c i char2index =
      if char2index c = i then 1998 else -9967 := by
  show c9_scored.pwm_rc i (char2index c) = _
  rw [c9_scored_rc_eq]
  exact c9_pwm_rc_val i (char2index c) hi hc

lemma c9_fwd0 : score_subseq c9_scored c9_seq 0 char2index = -27903 := by
  unfold score_subseq
  rw [c9_scored_size]
  rw [Finset.sum_range_succ, Finset.sum_range_succ, Finset.sum_range_succ,
    Finset.sum_range_one]
  show get_score c9_scored (c9_seq.getD (0 + 0) 'N') 0 char2index +
      get_score c9_scored (c9_seq.getD (1 + 0) 'N') 1 char2index +
      get_score c9_scored (c9_seq.getD (2 + 0) 'N') 2 char2index +
      get_score c9_scored (c9_seq.getD (3 + 0) 'N') 3 char2index = -27903
  rw [show c9_seq.getD (0 + 0) 'N' = 'A' from rfl,
    show c9_seq.getD (1 + 0) 'N' = 'A' from rfl,
    show c9_seq.getD (2 + 0) 'N' = 'A' from rfl,
    show c9_seq.getD (3 + 0) 'N' = 'C' from rfl,
    c9_get 'A' 0 (by norm_num) (by decide),
    c9_get 'A' 1 (by norm_num) (by decide),
    c9_get 'A' 2 (by norm_num) (by decide),
    c9_get 'C' 3 (by norm_num) (by decide)]
  decide

lemma c9_fwd1 : score_subseq c9_scored c9_seq 1 char2index = -27903 := by
  unfold score_subseq
  rw [c9_scored_size]
  rw [Finset.sum_range_succ, Finset.sum_range_succ, Finset.sum_range_succ,
    Finset.sum_range_one]
  show get_score c9_scored (c9_seq.getD (0 + 1) 'N') 0 char2index +
      get_score c9_scored (c9_seq.getD (1 + 1) 'N') 1 char2index +
      get_score c9_scored (c9_seq.getD (2 + 1) 'N') 2 char2index +
      get_score c9_scored (c9_seq.getD (3 + 1) 'N') 3 char2index = -27903
  rw [show c9_seq.getD (0 + 1) 'N' = 'A' from rfl,
    show c9_seq.getD (1 + 1) 'N' = 'A' from rfl,
    show c9_seq.getD (2 + 1) 'N' = 'C' from rfl,
    show c9_seq.getD (3 + 1) 'N' = 'G' from rfl,
    c9_get 'A' 0 (by norm_num) (by decide),
    c9_get 'A' 1 (by norm_num) (by decide),
    c9_get 'C' 2 (by norm_num) (by decide),
    c9_get 'G' 3 (by norm_num) (by decide)]
  decide

lemma c9_fwd2 : score_subseq c9_scored c9_seq 2 char2index = 7992 := by
  unfold score_subseq
  rw [c9_scored_size]
  rw [Finset.sum_range_succ, Finset.sum_range_succ, Finset.sum_range_succ,
    Finset.sum_range_one]
  show get_score c9_scored (c9_seq.getD (0 + 2) 'N') 0 char2index +
      get_score c9_scored (c9_seq.getD (1 + 2) 'N') 1 char2index +
      get_score c9_scored (c9_seq.getD (2 + 2) 'N') 2 char2index +
      get_score c9_scored (c9_seq.getD (3 + 2) 'N') 3 char2index = 7992
  rw [show c9_seq.getD (0 + 2) 'N' = 'A' from rfl,
    show c9_seq.getD (1 + 2) 'N' = 'C' from rfl,
    show c9_seq.getD (2 + 2) 'N' = 'G' from rfl,
    show c9_seq.getD (3 + 2) 'N' = 'T' from rfl,
    c9_get 'A' 0 (by norm_num) (by decide),
    c9_get 'C' 1 (by norm_num) (by decide),
    c9_get 'G' 2 (by norm_num) (by decide),
    c9_get 'T' 3 (by norm_num) (by decide)]
  decide

lemma c9_fwd3 : score_subseq c9_scored c9_seq 3 char2index = -39868 := by
  unfold score_subseq
  rw [c9_scored_size]
  rw [Finset.sum_range_succ, Finset.sum_range_succ, Finset.sum_range_succ,
    Finset.sum_range_one]
  show get_score c9_scored (c9_seq.getD (0 + 3) 'N') 0 char2index +
      get_score c9_scored (c9_seq.getD (1 + 3) 'N') 1 char2index +
      get_score c9_scored (c9_seq.getD (2 + 3) 'N') 2 char2index +
      get_score c9_scored (c9_seq.getD (3 + 3) 'N') 3 char2index = -39868
  rw [show c9_seq.getD (0 + 3) 'N' = 'C' from rfl,
    show c9_seq.getD (1 + 3) 'N' = 'G' from rfl,
    show c9_seq.getD (2 + 3) 'N' = 'T' from rfl,
    show c9_seq.getD (3 + 3) 'N' = 'A' from rfl,
    c9_get 'C' 0 (by norm_num) (by decide),
    c9_get 'G' 1 (by norm_num) (by decide),
    c9_get 'T' 2 (by norm_num) (by decide),
    c9_get 'A' 3 (by norm_num) (by decide)]
  decide

lemma c9_fwd4 : score_subseq c9_scored c9_seq 4 char2index = -39868 := by
  unfold score_subseq
  rw [c9_scored_size]
  rw [Finset.sum_range_succ, Finset.sum_range_succ, Finset.sum_range_succ,
    Finset.sum_range_one]
  show get_score c9_scored (c9_seq.getD (0 + 4) 'N') 0 char2index +
      get_score c9_scored (c9_seq.getD (1 + 4) 'N') 1 char2index +
      get_score c9_scored (c9_seq.getD (2 + 4) 'N') 2 char2index +
      get_score c9_scored (c9_seq.getD (3 + 4) 'N') 3 char2index = -39868
  rw [show c9_seq.getD (0 + 4) 'N' = 'G' from rfl,
    show c9_seq.getD (1 + 4) 'N' = 'T' from rfl,
    show c9_seq.getD (2 + 4) 'N' = 'A' from rfl,
    show c9_seq.getD (3 + 4) 'N' = 'A' from rfl,
    c9_get 'G' 0 (by norm_num) (by decide),
    c9_get 'T' 1 (by norm_num) (by decide),
    c9_get 'A' 2 (by norm_num) (by decide),
    c9_get 'A' 3 (by norm_num) (by decide)]
  decide

lemma c9_rev0 : score_subseq_rev c9_scored c9_seq 0 char2index = -27903 := by
  unfold score_subseq_rev
  rw [c9_scored_size]
  rw [Finset.sum_range_succ, Finset.sum_range_succ, Finset.sum_range_succ,
    Finset.sum_range_one]
  show get_score_rc c9_scored (c9_seq.getD (0 + 0) 'N') 0 char2index +
      get_score_rc c9_scored (c9_seq.getD (1 + 0) 'N') 1 char2index +
      get_score_rc c9_scored (c9_seq.getD (2 + 0) 'N') 2 char2index +
      get_score_rc c9_scored (c9_seq.getD (3 + 0) 'N') 3 char2index = -27903
  rw [show c9_seq.getD (0 + 0) 'N' = 'A' from rfl,
    show c9_seq.getD (1 + 0) 'N' = 'A' from rfl,
    show c9_seq.getD (2 + 0) 'N' = 'A' from rfl,
    show c9_seq.getD (3 + 0) 'N' = 'C' from rfl,
    c9_get_rc 'A' 0 (by norm_num) (by decide),
    c9_get_rc 'A' 1 (by norm_num) (by decide),
    c9_get_rc 'A' 2 (by norm_num) (by decide),
    c9_get_rc 'C' 3 (by norm_num) (by decide)]
  decide

lemma c9_rev1 : score_subseq_rev c9_scored c9_seq 1 char2index = -27903 := by
  unfold score_subseq_rev
  rw [c9_scored_size]
  rw [Finset.sum_range_succ, Finset.sum_range_succ, Finset.sum_range_succ,
    Finset.sum_range_one]
  show get_score_rc c9_scored (c9_seq.getD (0 + 1) 'N') 0 char2index +
      get_score_rc c9_scored (c9_seq.getD (1 + 1) 'N') 1 char2index +
      get_score_rc c9_scored (c9_seq.getD (2 + 1) 'N') 2 char2index +
      get_score_rc c9_scored (c9_seq.getD (3 + 1) 'N') 3 char2index = -27903
  rw [show c9_seq.getD (0 + 1) 'N' = 'A' from rfl,
    show c9_seq.getD (1 + 1) 'N' = 'A' from rfl,
    show c9_seq.getD (2 + 1) 'N' = 'C' from rfl,
    show c9_seq.getD (3 + 1) 'N' = 'G' from rfl,
    c9_get_rc 'A' 0 (by norm_num) (by decide),
    c9_get_rc 'A' 1 (by norm_num) (by decide),
    c9_get_rc 'C' 2 (by norm_num) (by decide),
    c9_get_rc 'G' 3 (by norm_num) (by decide)]
  decide

lemma c9_rev2 : score_subseq_rev c9_scored c9_seq 2 char2index = 7992 := by
  unfold score_subseq_rev
  rw [c9_scored_size]
  rw [Finset.sum_range_succ, Finset.sum_range_succ, Finset.sum_range_succ,
    Finset.sum_range_one]
  show get_score_rc c9_scored (c9_seq.getD (0 + 2) 'N') 0 char2index +
      get_score_rc c9_scored (c9_seq.getD (1 + 2) 'N') 1 char2index +
      get_score_rc c9_scored (c9_seq.getD (2 + 2) 'N') 2 char2index +
      get_score_rc c9_scored (c9_seq.getD (3 + 2) 'N') 3 char2index = 7992
  rw [show c9_seq.getD (0 + 2) 'N' = 'A' from rfl,
    show c9_seq.getD (1 + 2) 'N' = 'C' from rfl,
    show c9_seq.getD (2 + 2) 'N' = 'G' from rfl,
    show c9_seq.getD (3 + 2) 'N' = 'T' from rfl,
    c9_get_rc 'A' 0 (by norm_num) (by decide),
    c9_get_rc 'C' 1 (by norm_num) (by decide),
    c9_get_rc 'G' 2 (by norm_num) (by decide),
    c9_get_rc 'T' 3 (by norm_num) (by decide)]
  decide

lemma c9_rev3 : score_subseq_rev c9_scored c9_seq 3 char2index = -39868 := by
  unfold score_subseq_rev
  rw [c9_scored_size]
  rw [Finset.sum_range_succ, Finset.sum_range_succ, Finset.sum_range_succ,
    Finset.sum_range_one]
  show get_score_rc c9_scored (c9_seq.getD (0 + 3) 'N') 0 char2index +
      get_score_rc c9_scored (c9_seq.getD (1 + 3) 'N') 1 char2index +
      get_score_rc c9_scored (c9_seq.getD (2 + 3) 'N') 2 char2index +
      get_score_rc c9_scored (c9_seq.getD (3 + 3) 'N') 3 char2index = -39868
  rw [show c9_seq.getD (0 + 3) 'N' = 'C' from rfl,
    show c9_seq.getD (1 + 3) 'N' = 'G' from rfl,
    show c9_seq.getD (2 + 3) 'N' = 'T' from rfl,
    show c9_seq.getD (3 + 3) 'N' = 'A' from rfl,
    c9_get_rc 'C' 0 (by norm_num) (by decide),
    c9_get_rc 'G' 1 (by norm_num) (by decide),
    c9_get_rc 'T' 2 (by norm_num) (by decide),
    c9_get_rc 'A' 3 (by norm_num) (by decide)]
  decide

lemma c9_rev4 : score_subseq_rev c9_scored c9_seq 4 char2index = -39868 := by
  unfold score_subseq_rev
  rw [c9_scored_size]
  rw [Finset.sum_range_succ, Finset.sum_range_succ, Finset.sum_range_succ,
    Finset.sum_range_one]
  show get_score_rc c9_scored (c9_seq.getD (0 + 4) 'N') 0 char2index +
      get_score_rc c9_scored (c9_seq.getD (1 + 4) 'N') 1 char2index +
      get_score_rc c9_scored (c9_seq.getD (2 + 4) 'N') 2 char2index +
      get_score_rc c9_scored (c9_seq.getD (3 + 4) 'N') 3 char2index = -39868
  rw [show c9_seq.getD (0 + 4) 'N' = 'G' from rfl,
    show c9_seq.getD (1 + 4) 'N' = 'T' from rfl,
    show c9_seq.getD (2 + 4) 'N' = 'A' from rfl,
    show c9_seq.getD (3 + 4) 'N' = 'A' from rfl,
    c9_get_rc 'G' 0 (by norm_num) (by decide),
    c9_get_rc 'T' 1 (by norm_num) (by decide),
    c9_get_rc 'A' 2 (by norm_num) (by decide),
    c9_get_rc 'A' 3 (by norm_num) (by decide)]
  decide

end Yamscan

namespace Yamscan

open Yam

lemma c9_pval_top : score2pval c9_scored c9_cdf 7992 = 1/256 := by
  unfold score2pval
  rw [c9_scored_off]
  rw [show ((7992:ℤ) - -39868).toNat = 47860 from by decide]
  exact c9_cdf_top

/-- The full output of `score_seq` on the scenario: one forward and one
reverse-complement hit, printed with 1-based start 3, inclusive end 6
(the 0-based window is offsets 2..5), match `ACGT`, score 7992 and
reported p-value `1/256`. -/
lemma c9_hits :
    score_seq c9_scored c9_cdf c9_seq 8 true char2index =
      [⟨3, 6, '+', 7992, 1/256, ['A', 'C', 'G', 'T']⟩,
       ⟨3, 6, '-', 7992, 1/256, ['A', 'C', 'G', 'T']⟩] := by
  have hnot : ¬ ((8:ℕ) < c9_scored.size ∨ c9_scored.threshold = int_max) := by
    rw [c9_scored_size, c9_thr_val]
    decide
  have htk : (c9_seq.drop 2).take 4 = ['A', 'C', 'G', 'T'] := rfl
  unfold score_seq
  rw [if_neg hnot]
  simp only [c9_scored_size, c9_thr_val, show (8:ℕ) - 4 + 1 = 5 from rfl,
    show List.range 5 = [0, 1, 2, 3, 4] from rfl, List.flatMap_cons,
    List.flatMap_nil, List.append_nil]
  simp only [c9_fwd0, c9_rev0, c9_fwd1, c9_rev1, c9_fwd2, c9_rev2, c9_fwd3,
    c9_rev3, c9_fwd4, c9_rev4, c9_pval_top, htk]
  norm_num

/-- Claim C9 (status: corrected).  Counterexample to the claimed hit
p-value: scanning the consensus motif `ACGT` (with the consensus-mode
parameters `pvalue = 1`, `nsites = 1000`, `pseudocount = 1`, uniform
background that `main` installs) against the sequence `AAACGTAA`
reports the p-value `1/256 = 0.25^4` in every emitted hit record —
`cdf[max_score - cdf_offset]`, the probability of the maximal score
under the background — not `1.0` as the claim states. -/
theorem C9_counterexample :
    (score_seq c9_scored c9_cdf c9_seq 8 true char2index).map Hit.pval =
      [1/256, 1/256] ∧ ((1:ℚ)/256 ≠ 1) := by
  refine ⟨?_, by norm_num⟩
  rw [c9_hits]
  rfl

/-- Claim C9 amended: scanning with consensus motif `ACGT` against
`AAACGTAA` (defaults scan both strands) emits a forward hit and a
reverse-complement hit, each printed with start 3 and end 6 (1-based
start and inclusive end; the 0-based window is offsets 2..5), match
`ACGT`, score `7992 = max_score` (consensus mode does set
`threshold = max_score` exactly), and reported p-value
`1/256 = 0.25^4`, not 1.0. -/
theorem C9_amended :
    score_seq c9_scored c9_cdf c9_seq 8 true char2index =
      [⟨3, 6, '+', 7992, 1/256, ['A', 'C', 'G', 'T']⟩,
       ⟨3, 6, '-', 7992, 1/256, ['A', 'C', 'G', 'T']⟩] ∧
    c9_scored.threshold = c9_scored.max_score ∧
    c9_scored.max_score = 7992 := by
  refine ⟨c9_hits, ?_, c9_maxs_val⟩
  rw [c9_thr_val, c9_maxs_val]

end Yamscan
